import Mathlib

/-!
# Command resolution and bootstrap of the Windows agent service

A shallow embedding of `agents/wnx/src/main/check_mk_service.cpp`.

* Text tokens (`std::wstring`, `std::string`) are `String`s; the conversions
  `wtools::ToUtf8` / `wtools::ConvertToUtf16` are the identity on them.
* Every effect the program performs on its environment (console output, log
  set-up, calls of the external executors, polls, sleeps) is recorded as an
  `Event`; a run is the list of its events together with the way control left
  the function (`Ctl`).
* Whatever the environment answers is read from a `World`.
-/

namespace cma

/-! ## Data model -/

/-- Process-wide operating mode, the value stored by `details::SetModus`. -/
inductive Modus where
  | app
  | service
  | integration
deriving DecidableEq, Repr

/-- Console colours used by the usage printer. -/
inductive Colors where
  | red
  | green
  | cyan
  | pink
deriving DecidableEq, Repr

/-- Value of `srv::StdioLog`. -/
inductive StdioLog where
  | no
  | yes
  | extended
deriving DecidableEq, Repr

/-- Value of `srv::FwMode`. -/
inductive FwMode where
  | show
  | configure
  | clear
deriving DecidableEq, Repr

/-- One call of an external executor, with the arguments it is handed. -/
inductive Exec where
  | InstallMainService
  | RemoveMainService
  | TestMt
  | TestIo
  | TestMainServiceSelf (interval : Int)
  | TestLegacy
  | RestoreWatoConfig
  | ExecMainService (log_on_screen : StdioLog)
  | ExecRealtimeTest (print : Bool)
  | ExecSkypeTest
  | ExecResetOhm
  | ExecStopLegacy
  | ExecStartLegacy
  | ExecCap
  | ExecVersion
  | ExecCmkUpdateAgent (params : List String)
  | ExecPatchHash
  | ExecShowConfig (sec : String)
  | ExecUpgradeParam (force : Bool)
  | ExecCvtIniYaml (ini yml : String) (diag : StdioLog)
  | ExecFirewall (mode : FwMode) (app_name name : String)
  | ExecSection (sec : String) (delay : Int) (diag : StdioLog)
  | ExecExtractCap (file dest : String)
  | ExecReloadConfig
  | ExecUninstallAlert
  | ExecRemoveLegacyAgent
  | RunPerf (name port id_val : String) (timeout : Int) (counters : List String)
deriving DecidableEq, Repr

/-- Observable effects of the program, in program order. -/
inductive Event where
  | set_terminate
  | SetModus (m : Modus)
  | ServiceAsService (app_name : String) (delay_ms : Nat)
  | ColoredOutputOnStdio (enable : Bool)
  | DuplicateOnStdio (enable : Bool)
  | sendStringToStdio (text : String) (color : Colors)
  | PrintBlock (title : String) (color : Colors)
  | IsPostInstallRequired (answer : Bool)
  | sleep_for (seconds : Nat)
  | cout (text : String)
  | ChangeLogFileName (path : String)
  | EnableDebugLog (enable : Bool)
  | EnableTraceLog (enable : Bool)
  | log (text : String)
  | ParseExeCommandLine (args : List String)
  | OnStartApp
  | GetEnv (name : String)
  | print (text : String)
  | call (e : Exec)
deriving DecidableEq, Repr

/-- How control leaves a function: it returns a value, the process is ended by
`::exit`, a read falls outside a vector (undefined behaviour), or the model
ran out of fuel. -/
inductive Ctl (α : Type) where
  | done (a : α)
  | exit (code : Int)
  | undefined
  | outOfFuel
deriving DecidableEq, Repr

/-- A run: the events performed and the way control left. -/
structure Run (α : Type) where
  trace : List Event
  ctl : Ctl α
deriving DecidableEq, Repr

/-- Return `a` without any effect. -/
def ret {α : Type} (a : α) : Run α := ⟨[], .done a⟩

/-- Perform the events `es`, then continue as `k`. -/
def emit {α : Type} (es : List Event) (k : Run α) : Run α := ⟨es ++ k.trace, k.ctl⟩

/-- Sequencing: run `r`; when it returns, continue with `k`. -/
def Run.bind {α β : Type} (r : Run α) (k : α → Run β) : Run β :=
  match r.ctl with
  | .done a => emit r.trace (k a)
  | .exit c => ⟨r.trace, .exit c⟩
  | .undefined => ⟨r.trace, .undefined⟩
  | .outOfFuel => ⟨r.trace, .outOfFuel⟩

/-- Result of `exe::cmdline::ParseExeCommandLine`. -/
structure CommandLine where
  error_code : Int
  name : String
  id_val : String
  timeout_val : String
deriving DecidableEq, Repr

/-- Answers of the environment and of the collaborators that live outside
this translation unit. `IsPostInstallRequired n` is the answer to poll number
`n` (counting from zero); `redirectThrows p` tells whether switching the log
file to `p` raises. -/
structure World where
  IsPostInstallRequired : Nat → Bool
  ServiceAsService : String → Nat → Int
  exec : Exec → Int
  GetEnv : String → String
  redirectThrows : String → Bool
  ParseExeCommandLine : List String → CommandLine

/-- Command-line constants of `common/cmdline_info.h` and the two further
names this file reads (`srv::kAppFirewallRuleName`, `env::integration_base_dir`).
The header is not among the sources, so the values are parameters. -/
structure CmdLine where
  kRunOnceParam : String
  kInstallParam : String
  kRemoveParam : String
  kCheckParam : String
  kCheckParamMt : String
  kCheckParamIo : String
  kCheckParamSelf : String
  kLegacyTestParam : String
  kRestoreParam : String
  kExecParam : String
  kAdhocParam : String
  kExecParamShowAll : String
  kExecParamShowWarn : String
  kExecParamIntegration : String
  kRealtimeParam : String
  kSkypeParam : String
  kResetOhm : String
  kStopLegacyParam : String
  kStartLegacyParam : String
  kCapParam : String
  kVersionParam : String
  kUpdaterParam : String
  kCmkUpdaterParam : String
  kPatchHashParam : String
  kShowConfigParam : String
  kUpgradeParam : String
  kUpgradeParamForce : String
  kCvtParam : String
  kCvtParamShow : String
  kFwParam : String
  kFwConfigureParam : String
  kFwClearParam : String
  kSectionParam : String
  kSectionParamShow : String
  kCapExtractParam : String
  kReloadConfigParam : String
  kUninstallAlert : String
  kRemoveLegacyParam : String
  kHelpParam : String
  kAppFirewallRuleName : String
  integration_base_dir : String

/-- The conversion `wtools::ToUtf8`; tokens are modelled as text, on which the
conversion between the wide and the UTF-8 form changes nothing. -/
def ToUtf8 (s : String) : String := s

/-- The conversion `wtools::ConvertToUtf16`, see `ToUtf8`. -/
def ConvertToUtf16 (s : String) : String := s

/-! ## Usage text -/

namespace cmdline

/-- The fourteen blocks `ServiceUsage` prints, each by one `PrintBlock` call
(title and colour as in the source; the formatted body is presentation). -/
def usageBlocks : List Event :=
  [ .PrintBlock "Normal Usage:\n" .green,
    .PrintBlock "Agent Updater Usage:\n" .green,
    .PrintBlock "Self Checking:\n" .cyan,
    .PrintBlock "Ad Hoc Testing:\n" .cyan,
    .PrintBlock "Realtime Testing:\n" .cyan,
    .PrintBlock "Display Config and Environment Variables:\n" .cyan,
    .PrintBlock "Convert Legacy Agent Ini File into Agent Yml file:\n" .pink,
    .PrintBlock "Activate/Deactivate Legacy Agent:\n" .pink,
    .PrintBlock "Configure Firewall Rule:\n" .pink,
    .PrintBlock "Upgrade Legacy Agent(migration):\n" .pink,
    .PrintBlock "Install Bakery Files and plugins.cap in install folder:\n" .pink,
    .PrintBlock "Test sections individually:\n" .pink,
    .PrintBlock "Install or remove service(only for experienced users):\n" .pink,
    .PrintBlock "Restore WATO Configuration(only for experienced users):\n" .pink ]

/-- The events of `ServiceUsage(comment)`: output set-up, the comment in red
when it is not empty, then the usage blocks. -/
def ServiceUsage (comment : String) : List Event :=
  [.ColoredOutputOnStdio true, .DuplicateOnStdio true]
    ++ (if comment ≠ "" then [.sendStringToStdio (ToUtf8 comment) .red] else [])
    ++ usageBlocks

end cmdline

/-! ## Numeric helpers -/

/-- White space skipped by the `strtol` family (C locale). -/
def isspace (c : Char) : Bool :=
  c == ' ' || c == '\t' || c == '\n' || c == '\x0b' || c == '\x0c' || c == '\r'

/-- Value of a run of decimal digits. -/
def digitsValue (ds : List Char) : Nat :=
  ds.foldl (fun acc c => 10 * acc + (c.toNat - 48)) 0

/-- Subject sequence of the `strtol` family in base 10: white space is
skipped, one optional sign is read, then the longest run of digits; whatever
follows is ignored. `none` when there is no digit (no conversion), otherwise
the sign (`true` for minus) and the magnitude. -/
def scanInteger (s : String) : Option (Bool × Nat) :=
  let body := s.data.dropWhile isspace
  let signed : Bool × List Char :=
    match body with
    | '-' :: r => (true, r)
    | '+' :: r => (false, r)
    | _ => (false, body)
  let ds := signed.2.takeWhile Char.isDigit
  if ds = [] then none else some (signed.1, digitsValue ds)

/-- The two exceptions the `std::sto*` functions raise. -/
inductive StdException where
  | invalid_argument
  | out_of_range
deriving DecidableEq, Repr

/-- Model of `std::stoi`: a 32-bit signed result. -/
def stoi (s : String) : Except StdException Int :=
  match scanInteger s with
  | none => .error .invalid_argument
  | some (neg, mag) =>
    let v : Int := if neg then -(mag : Int) else (mag : Int)
    if v < -(2 : Int) ^ 31 ∨ (2 : Int) ^ 31 - 1 < v then .error .out_of_range else .ok v

/-- Model of `std::stoll`: a 64-bit signed result. -/
def stoll (s : String) : Except StdException Int :=
  match scanInteger s with
  | none => .error .invalid_argument
  | some (neg, mag) =>
    let v : Int := if neg then -(mag : Int) else (mag : Int)
    if v < -(2 : Int) ^ 63 ∨ (2 : Int) ^ 63 - 1 < v then .error .out_of_range else .ok v

/-- Model of `std::stoul` where `unsigned long` has 32 bits (the Windows data
model of this agent): the magnitude must fit; a minus sign negates the value in
the unsigned type. -/
def stoul (s : String) : Except StdException Nat :=
  match scanInteger s with
  | none => .error .invalid_argument
  | some (neg, mag) =>
    if 2 ^ 32 - 1 < mag then .error .out_of_range
    else .ok (if neg then (2 ^ 32 - mag) % 2 ^ 32 else mag)

/-- Model of `std::stoull`: as `stoul` with 64 bits. -/
def stoull (s : String) : Except StdException Nat :=
  match scanInteger s with
  | none => .error .invalid_argument
  | some (neg, mag) =>
    if 2 ^ 64 - 1 < mag then .error .out_of_range
    else .ok (if neg then (2 ^ 64 - mag) % 2 ^ 64 else mag)

/-- The helper `ToInt(value, dflt)`. -/
def ToInt (value : String) (dflt : Int) : Int :=
  match stoi value with
  | .ok v => v
  | .error _ => dflt

/-- The helper `ToUInt64(value, dflt)`. -/
def ToUInt64 (value : String) (dflt : Nat) : Nat :=
  match stoull value with
  | .ok v => v
  | .error _ => dflt

/-- The helper `ToInt64(value, dflt)`. -/
def ToInt64 (value : String) (dflt : Int) : Int :=
  match stoll value with
  | .ok v => v
  | .error _ => dflt

/-- The helper `ToUInt(value, dflt)`; the cast to `uint32_t` is the reduction
modulo `2 ^ 32`. -/
def ToUInt (value : String) (dflt : Nat) : Nat :=
  match stoul value with
  | .ok v => v % 2 ^ 32
  | .error _ => dflt

/-! ## Service bootstrap -/

namespace srv

/-- The function `srv::RunService`. The per-tick probe handed to
`ServiceAsService` runs inside the hosting loop and is part of that call. -/
def RunService (w : World) (app_name : String) : Run Int :=
  let r := w.ServiceAsService app_name 1000
  emit [.SetModus .service, .ServiceAsService app_name 1000] <|
    emit (if r = 0 then cmdline.ServiceUsage "" else []) <|
      ret (if r = 0 then 0 else 1)

end srv

/-! ## Post-install wait -/

/-- The `do … while` loop of `WaitForPostInstall`, entered with the current
value of `count`; `fuel` bounds the number of iterations of the model. -/
def waitLoop (w : World) : Nat → Nat → Run Unit
  | 0, _ => ⟨[], .outOfFuel⟩
  | fuel + 1, count =>
    let count := count + 1
    emit [.sleep_for 1, .cout "."] <|
      if count > 240 then
        ⟨[.cout "Service is failed or nor running"], .exit 73⟩
      else if w.IsPostInstallRequired count then
        emit [.IsPostInstallRequired true] (waitLoop w fuel count)
      else
        emit [.IsPostInstallRequired false] (ret ())

/-- The function `WaitForPostInstall`. The loop leaves after at most 241
iterations, which is the fuel it is given. -/
def WaitForPostInstall (w : World) : Run Unit :=
  if !w.IsPostInstallRequired 0 then
    emit [.IsPostInstallRequired false] (ret ())
  else
    emit [.IsPostInstallRequired true, .cout "Finalizing installation, please wait"]
      (waitLoop w 241 0)

/-! ## Single checks (`check`) -/

/-- Call the executor `e` and return its result. -/
def call (w : World) (e : Exec) : Run Int := ⟨[.call e], .done (w.exec e)⟩

/-- Print the usage text with `comment`, then return `code`. -/
def usage (comment : String) (code : Int) : Run Int :=
  emit (cmdline.ServiceUsage comment) (ret code)

/-- The function `CheckMainService(param, interval)`. -/
def CheckMainService (K : CmdLine) (w : World) (param : String) (interval : Int) : Run Int :=
  let what := ToUtf8 param
  if what = K.kCheckParamMt then call w .TestMt
  else if what = K.kCheckParamIo then call w .TestIo
  else if what = K.kCheckParamSelf then call w (.TestMainServiceSelf interval)
  else
    emit [.DuplicateOnStdio true, .ColoredOutputOnStdio true,
          .log ("Unsupported second parameter '" ++ what ++ "'\n\t Allowed "
                  ++ K.kCheckParamIo ++ ", " ++ K.kCheckParamMt ++ " or " ++ K.kCheckParamSelf)]
      (ret 0)

/-! ## Run-once performance counters -/

/-- The counter loop of `ProcessWinperf`, started on the tokens from index
`4 + offset` on: tokens are collected in order until one equals the sentinel or
the vector ends. -/
def collectCounters : List String → List String
  | [] => []
  | a :: rest => if "#" = a then [] else a :: collectCounters rest

/-- The part of `ProcessWinperf` after `offset` is known: the descriptor
sub-parser, the port token and the counters. -/
def ProcessWinperfAt (w : World) (args : List String) (offset : Nat) : Run Int :=
  let input := args.drop offset
  let parsed := w.ParseExeCommandLine input
  emit [.ParseExeCommandLine input] <|
    if parsed.error_code ≠ 0 then
      emit [.log ("Invalid parameters in command line [" ++ toString parsed.error_code ++ "]")]
        (ret 1)
    else
      match args[offset + 1]? with
      | none => ⟨[], .undefined⟩
      | some port =>
        let counters := collectCounters (args.drop (4 + offset))
        call w (.RunPerf parsed.name port parsed.id_val (ToInt parsed.timeout_val 20) counters)

/-- The function `ProcessWinperf(args)`. Reading `args[0]` of an empty vector
is undefined behaviour; `args[0][0]` of an empty token is the terminator. -/
def ProcessWinperf (w : World) (args : List String) : Run Int :=
  match args[0]? with
  | none => ⟨[], .undefined⟩
  | some a0 =>
    if a0.data.head? = some '@' then
      let p := String.mk (a0.data.drop 1)
      if w.redirectThrows p then ret 1
      else
        emit [.ChangeLogFileName (ToUtf8 p), .EnableDebugLog true, .EnableTraceLog true,
              .log "winperf started"]
          (ProcessWinperfAt w args 1)
    else ProcessWinperfAt w args 0

/-! ## Command dispatch -/

namespace tools

/-- Modelled from the spec: `tools::CheckArgvForValue(argc, argv, pos, value)`,
declared outside the sources at hand; it tells whether the vector has a token at
position `pos` and that token is the flag `value` (the flag tokens of the `cvt`,
`firewall` and `section` commands). -/
def CheckArgvForValue (argv : List String) (pos : Nat) (value : String) : Bool :=
  decide (pos < argv.length) && (argv.getD pos "" == ConvertToUtf16 value)

end tools

/-- The part of `MainFunction` after `OnStartApp()`: the chain of comparisons
of `param` with the command tokens. -/
def Dispatch (K : CmdLine) (w : World) (argv : List String) (param : String) : Run Int :=
  let argc := argv.length
  if param = K.kInstallParam then call w .InstallMainService
  else if param = K.kRemoveParam then call w .RemoveMainService
  else if param = K.kCheckParam then
    let param_next := if argc > 2 then argv.getD 2 "" else ""
    let interval := if argc > 3 then ToInt (argv.getD 3 "") 0 else 0
    CheckMainService K w param_next interval
  else if param = K.kLegacyTestParam then call w .TestLegacy
  else if param = K.kRestoreParam then call w .RestoreWatoConfig
  else if param = K.kExecParam ∨ param = K.kAdhocParam then
    let second_param := if argc > 2 then ToUtf8 (argv.getD 2 "") else ""
    if second_param = K.kExecParamShowAll then call w (.ExecMainService .extended)
    else if second_param = K.kExecParamShowWarn then call w (.ExecMainService .yes)
    else if second_param = K.kExecParamIntegration then
      emit [.GetEnv K.integration_base_dir] <|
        if w.GetEnv K.integration_base_dir = "" then
          ⟨[.print ("Integration is requested, but env var '" ++ K.integration_base_dir
                      ++ "' is absent\n")], .exit 12⟩
        else emit [.SetModus .integration] (call w (.ExecMainService .no))
    else call w (.ExecMainService .no)
  else if param = K.kRealtimeParam then call w (.ExecRealtimeTest true)
  else if param = K.kSkypeParam then call w .ExecSkypeTest
  else if param = K.kResetOhm then call w .ExecResetOhm
  else if param = K.kStopLegacyParam then call w .ExecStopLegacy
  else if param = K.kStartLegacyParam then call w .ExecStartLegacy
  else if param = K.kCapParam then call w .ExecCap
  else if param = K.kVersionParam then call w .ExecVersion
  else if param = K.kUpdaterParam ∨ param = K.kCmkUpdaterParam then
    call w (.ExecCmkUpdateAgent (argv.drop 2))
  else if param = K.kPatchHashParam then call w .ExecPatchHash
  else if param = K.kShowConfigParam then
    let second_param := if argc > 2 then argv.getD 2 "" else ""
    call w (.ExecShowConfig (ToUtf8 second_param))
  else if param = K.kUpgradeParam then
    let second_param := if argc > 2 then argv.getD 2 "" else ""
    call w (.ExecUpgradeParam (second_param == ConvertToUtf16 K.kUpgradeParamForce))
  else if param = K.kCvtParam then
    if argc > 2 then
      let diag := if tools.CheckArgvForValue argv 2 K.kCvtParamShow then StdioLog.yes
                  else StdioLog.no
      let pos := if diag = StdioLog.yes then 3 else 2
      if argc ≤ pos then
        usage ("inifile is mandatory to call " ++ ConvertToUtf16 K.kCvtParam ++ "\n") 2
      else
        let ini := if argc > pos then argv.getD pos "" else ""
        let yml := if argc > pos + 1 then argv.getD (pos + 1) "" else ""
        call w (.ExecCvtIniYaml ini yml diag)
    else
      usage ("Invalid count of parameters for " ++ ConvertToUtf16 K.kCvtParam ++ "\n") 2
  else if param = K.kFwParam then
    if argc ≤ 2 then call w (.ExecFirewall .show (argv.getD 0 "") "")
    else if tools.CheckArgvForValue argv 2 K.kFwConfigureParam then
      call w (.ExecFirewall .configure (argv.getD 0 "") K.kAppFirewallRuleName)
    else if tools.CheckArgvForValue argv 2 K.kFwClearParam then
      call w (.ExecFirewall .clear (argv.getD 0 "") K.kAppFirewallRuleName)
    else usage ("Invalid parameter for " ++ ConvertToUtf16 K.kFwParam ++ "\n") 2
  else if param = K.kSectionParam ∧ argc > 2 then
    let sec := argv.getD 2 ""
    let delay := if argc > 3 then ToInt (argv.getD 3 "") 0 else 0
    let diag := if tools.CheckArgvForValue argv 4 K.kSectionParamShow then StdioLog.yes
                else StdioLog.no
    call w (.ExecSection sec delay diag)
  else if param = K.kCapExtractParam ∧ argc > 3 then
    call w (.ExecExtractCap (argv.getD 2 "") (argv.getD 3 ""))
  else if param = K.kReloadConfigParam then
    emit [.call .ExecReloadConfig] (ret 0)
  else if param = K.kUninstallAlert then
    emit [.log "UNINSTALL ALERT", .call .ExecUninstallAlert] (ret 0)
  else if param = K.kRemoveLegacyParam then
    emit [.call .ExecRemoveLegacyAgent] (ret 0)
  else if param = K.kHelpParam then usage "" 0
  else
    usage ("Provided Parameter \"" ++ ConvertToUtf16 param ++ "\" is not allowed\n") 13

/-- The function `MainFunction(argc, argv)`; `argc` is the length of `argv`. -/
def MainFunction (K : CmdLine) (w : World) (argv : List String) : Run Int :=
  let argc := argv.length
  emit [.set_terminate] <|
    if argc = 1 then srv.RunService w (argv.getD 0 "")
    else
      (WaitForPostInstall w).bind fun _ =>
        match argv[1]? with
        | none => ⟨[], .undefined⟩
        | some a1 =>
          let param := ToUtf8 a1
          if param = ToUtf8 K.kRunOnceParam then ProcessWinperf w (argv.drop 2)
          else emit [.OnStartApp] (Dispatch K w argv param)

/-! ## Observations on runs -/

/-- The executor calls of a trace, in order. -/
def executorCalls (t : List Event) : List Exec :=
  t.filterMap fun e => match e with
    | .call x => some x
    | _ => none

/-- Number of polls of the post-install predicate in a trace. -/
def pollCount (t : List Event) : Nat :=
  t.countP fun e => match e with
    | .IsPostInstallRequired _ => true
    | _ => false

/-- Number of one-second sleeps in a trace. -/
def sleepCount (t : List Event) : Nat :=
  t.countP fun e => match e with
    | .sleep_for _ => true
    | _ => false

/-- Inputs handed to the descriptor sub-parser in a trace. -/
def parserInputs (t : List Event) : List (List String) :=
  t.filterMap fun e => match e with
    | .ParseExeCommandLine a => some a
    | _ => none

/-- The trace shows the usage text: the fourteen blocks in a row. -/
def usagePrinted (t : List Event) : Prop :=
  cmdline.usageBlocks <:+: t

instance (t : List Event) : Decidable (usagePrinted t) := by
  unfold usagePrinted; infer_instance

/-- Tokens `MainFunction` compares the leading token with, in the order of the
comparisons (the run-once token first). -/
def CmdLine.leadingTokens (K : CmdLine) : List String :=
  [ K.kRunOnceParam, K.kInstallParam, K.kRemoveParam, K.kCheckParam, K.kLegacyTestParam,
    K.kRestoreParam, K.kExecParam, K.kAdhocParam, K.kRealtimeParam, K.kSkypeParam,
    K.kResetOhm, K.kStopLegacyParam, K.kStartLegacyParam, K.kCapParam, K.kVersionParam,
    K.kUpdaterParam, K.kCmkUpdaterParam, K.kPatchHashParam, K.kShowConfigParam,
    K.kUpgradeParam, K.kCvtParam, K.kFwParam, K.kSectionParam, K.kCapExtractParam,
    K.kReloadConfigParam, K.kUninstallAlert, K.kRemoveLegacyParam, K.kHelpParam ]

/-- The command tokens are mutually exclusive: no two leading tokens coincide. -/
def CmdLine.Distinct (K : CmdLine) : Prop := K.leadingTokens.Nodup

instance (K : CmdLine) : Decidable K.Distinct := by
  unfold CmdLine.Distinct; infer_instance

/-- Modelled from the spec: the command tokens of `common/cmdline_info.h`, which
is not among the sources, with the spellings of the spec's list of recognised
tokens. The firewall rule name and the name of the environment variable are not
spelled out there and stand for themselves. -/
def specCmdLine : CmdLine where
  kRunOnceParam := "run-once"
  kInstallParam := "install"
  kRemoveParam := "remove"
  kCheckParam := "check"
  kCheckParamMt := "mt"
  kCheckParamIo := "io"
  kCheckParamSelf := "self"
  kLegacyTestParam := "legacy-test"
  kRestoreParam := "restore"
  kExecParam := "exec"
  kAdhocParam := "adhoc"
  kExecParamShowAll := "all"
  kExecParamShowWarn := "warn"
  kExecParamIntegration := "integration"
  kRealtimeParam := "realtime"
  kSkypeParam := "skype-test"
  kResetOhm := "reset-ohm"
  kStopLegacyParam := "stop-legacy"
  kStartLegacyParam := "start-legacy"
  kCapParam := "cap"
  kVersionParam := "version"
  kUpdaterParam := "updater"
  kCmkUpdaterParam := "cmk-updater"
  kPatchHashParam := "patch-hash"
  kShowConfigParam := "show-config"
  kUpgradeParam := "upgrade"
  kUpgradeParamForce := "force"
  kCvtParam := "cvt"
  kCvtParamShow := "show"
  kFwParam := "firewall"
  kFwConfigureParam := "configure"
  kFwClearParam := "clear"
  kSectionParam := "section"
  kSectionParamShow := "show"
  kCapExtractParam := "extract-cap"
  kReloadConfigParam := "reload-config"
  kUninstallAlert := "uninstall-alert"
  kRemoveLegacyParam := "remove-legacy"
  kHelpParam := "help"
  kAppFirewallRuleName := "kAppFirewallRuleName"
  integration_base_dir := "integration_base_dir"

/-- A sample descriptor sub-parser: it wants four tokens and takes the second
to fourth as name, id and timeout. -/
def sampleParse (args : List String) : CommandLine :=
  if args.length < 4 then ⟨1, "", "", ""⟩
  else ⟨0, args.getD 1 "", args.getD 2 "", args.getD 3 ""⟩

/-- A sample world: installation is finished, the service loop reports `0`,
every executor reports `0`, no environment variable is set, redirects work. -/
def calmWorld : World where
  IsPostInstallRequired := fun _ => false
  ServiceAsService := fun _ _ => 0
  exec := fun _ => 0
  GetEnv := fun _ => ""
  redirectThrows := fun _ => false
  ParseExeCommandLine := sampleParse

/-- A sample world in which the post-install predicate never turns false and
the service loop reports `-1`; otherwise as `calmWorld`. -/
def stuckWorld : World where
  IsPostInstallRequired := fun _ => true
  ServiceAsService := fun _ _ => -1
  exec := fun _ => 0
  GetEnv := fun _ => ""
  redirectThrows := fun _ => false
  ParseExeCommandLine := sampleParse

/-- A sample world in which the post-install predicate answers true to its
first two polls and false from then on; otherwise as `calmWorld`. -/
def slowWorld : World where
  IsPostInstallRequired := fun n => decide (n < 2)
  ServiceAsService := fun _ _ => 0
  exec := fun _ => 0
  GetEnv := fun _ => ""
  redirectThrows := fun _ => false
  ParseExeCommandLine := sampleParse

/-! ## Basic facts about runs -/

@[simp] theorem emit_trace {α : Type} (es : List Event) (k : Run α) :
    (emit es k).trace = es ++ k.trace := rfl

@[simp] theorem emit_ctl {α : Type} (es : List Event) (k : Run α) :
    (emit es k).ctl = k.ctl := rfl

@[simp] theorem ret_trace {α : Type} (a : α) : (ret a).trace = [] := rfl

@[simp] theorem ret_ctl {α : Type} (a : α) : (ret a).ctl = .done a := rfl

theorem bind_of_done {α β : Type} (r : Run α) (k : α → Run β) (a : α)
    (h : r.ctl = .done a) : r.bind k = emit r.trace (k a) := by
  simp [Run.bind, h]

theorem bind_of_exit {α β : Type} (r : Run α) (k : α → Run β) (c : Int)
    (h : r.ctl = .exit c) : r.bind k = ⟨r.trace, .exit c⟩ := by
  simp [Run.bind, h]

/-! ## The post-install wait -/

/-- While every poll up to the cap answers true, the loop ends the process. -/
theorem waitLoop_exit (w : World) :
    ∀ fuel count, 241 ≤ fuel + count → count ≤ 240 →
      (∀ i, count < i → i ≤ 240 → w.IsPostInstallRequired i = true) →
      (waitLoop w fuel count).ctl = .exit 73 := by
  intro fuel
  induction fuel with
  | zero => intro count h1 h2; omega
  | succ fuel ih =>
    intro count h1 h2 hall
    by_cases hc : 240 < count + 1
    · simp [waitLoop, hc]
    · have hp : w.IsPostInstallRequired (count + 1) = true := hall _ (by omega) (by omega)
      have := ih (count + 1) (by omega) (by omega) (fun i hi hi2 => hall i (by omega) hi2)
      simp [waitLoop, hc, hp, this]

/-- When poll `k` is the first to answer false, the loop returns right after
it: `k - count` sleeps and as many polls were made since `count`. -/
theorem waitLoop_return (w : World) :
    ∀ fuel count k, 241 ≤ fuel + count → count < k → k ≤ 240 →
      w.IsPostInstallRequired k = false →
      (∀ i, count < i → i < k → w.IsPostInstallRequired i = true) →
      (waitLoop w fuel count).ctl = .done () ∧
      (waitLoop w fuel count).trace.getLast? = some (.IsPostInstallRequired false) ∧
      pollCount (waitLoop w fuel count).trace = k - count ∧
      sleepCount (waitLoop w fuel count).trace = k - count := by
  intro fuel
  induction fuel with
  | zero => intro count k h1 h2 h3; omega
  | succ fuel ih =>
    intro count k h1 h2 h3 hk hall
    have hc : ¬ 240 < count + 1 := by omega
    by_cases hkc : k = count + 1
    · subst hkc
      simp [waitLoop, hc, hk, pollCount, sleepCount]
    · have hp : w.IsPostInstallRequired (count + 1) = true := hall _ (by omega) (by omega)
      obtain ⟨a, b, c, d⟩ :=
        ih (count + 1) k (by omega) (by omega) h3 hk (fun i hi hi2 => hall i (by omega) hi2)
      have hne : (waitLoop w fuel (count + 1)).trace ≠ [] := by
        intro h0; rw [h0] at b; simp at b
      refine ⟨by simp [waitLoop, hc, hp, a], ?_, ?_, ?_⟩
      · simp only [waitLoop, hc, hp, if_true, if_false, emit_trace]
        rw [← List.append_assoc, List.getLast?_append_of_ne_nil _ hne]
        exact b
      · simp only [pollCount] at c ⊢
        simp [waitLoop, hc, hp, List.countP_append, List.countP_cons, c]
        omega
      · simp only [sleepCount] at d ⊢
        simp [waitLoop, hc, hp, List.countP_append, List.countP_cons, d]
        omega

/-- The wait ends the process when the first 241 polls all answer true. -/
theorem WaitForPostInstall_exit (w : World)
    (hall : ∀ i, i ≤ 240 → w.IsPostInstallRequired i = true) :
    (WaitForPostInstall w).ctl = .exit 73 := by
  have h0 := hall 0 (by omega)
  have := waitLoop_exit w 241 0 (by omega) (by omega) (fun i _ hi => hall i hi)
  simp [WaitForPostInstall, h0, this]

/-- The wait returns right after the first poll that answers false, when that
poll is among the first 241. -/
theorem WaitForPostInstall_return (w : World) (k : Nat) (hk : k ≤ 240)
    (hfalse : w.IsPostInstallRequired k = false)
    (htrue : ∀ i, i < k → w.IsPostInstallRequired i = true) :
    (WaitForPostInstall w).ctl = .done () ∧
    (WaitForPostInstall w).trace.getLast? = some (.IsPostInstallRequired false) ∧
    pollCount (WaitForPostInstall w).trace = k + 1 ∧
    sleepCount (WaitForPostInstall w).trace = k := by
  by_cases h0 : k = 0
  · subst h0
    simp [WaitForPostInstall, hfalse, pollCount, sleepCount]
  · have hp := htrue 0 (by omega)
    obtain ⟨a, b, c, d⟩ :=
      waitLoop_return w 241 0 k (by omega) (by omega) hk hfalse (fun i _ hi => htrue i hi)
    have hne : (waitLoop w 241 0).trace ≠ [] := by
      intro h; rw [h] at b; simp at b
    refine ⟨by simp [WaitForPostInstall, hp, a], ?_, ?_, ?_⟩
    · simp only [WaitForPostInstall, hp, Bool.not_true, emit_trace]
      rw [if_neg (by simp), emit_trace, List.getLast?_append_of_ne_nil _ hne]
      exact b
    · simp only [pollCount] at c ⊢
      simp [WaitForPostInstall, hp, List.countP_append, List.countP_cons, c]
    · simp only [sleepCount] at d ⊢
      simp [WaitForPostInstall, hp, List.countP_append, List.countP_cons, d]

/-- The wait returns whenever one of the first 241 polls answers false. -/
theorem WaitForPostInstall_done (w : World)
    (h : ∃ k, k ≤ 240 ∧ w.IsPostInstallRequired k = false) :
    (WaitForPostInstall w).ctl = .done () := by
  classical
  have hmin := Nat.find_spec h
  have hlt : ∀ i, i < Nat.find h → w.IsPostInstallRequired i = true := by
    intro i hi
    have := Nat.find_min h hi
    have hle : i ≤ 240 := by omega
    cases hv : w.IsPostInstallRequired i
    · exact absurd ⟨hle, hv⟩ this
    · rfl
  exact (WaitForPostInstall_return w (Nat.find h) hmin.1 hmin.2 hlt).1

/-- The loop of the wait calls no executor and no descriptor sub-parser. -/
theorem waitLoop_quiet (w : World) :
    ∀ fuel count, executorCalls (waitLoop w fuel count).trace = [] ∧
      parserInputs (waitLoop w fuel count).trace = [] := by
  intro fuel
  induction fuel with
  | zero => intro count; simp [waitLoop, executorCalls, parserInputs]
  | succ fuel ih =>
    intro count
    obtain ⟨a, b⟩ := ih (count + 1)
    simp only [executorCalls, parserInputs] at a b ⊢
    by_cases hc : 240 < count + 1
    · simp [waitLoop, hc]
    · cases hp : w.IsPostInstallRequired (count + 1) <;>
        simp [waitLoop, hc, hp, List.filterMap_append, a, b]

/-- The wait calls no executor. -/
theorem WaitForPostInstall_executorCalls (w : World) :
    executorCalls (WaitForPostInstall w).trace = [] := by
  have := (waitLoop_quiet w 241 0).1
  simp only [executorCalls] at this ⊢
  cases hp : w.IsPostInstallRequired 0 <;>
    simp [WaitForPostInstall, hp, List.filterMap_append, this]

/-- The wait hands nothing to the descriptor sub-parser. -/
theorem WaitForPostInstall_parserInputs (w : World) :
    parserInputs (WaitForPostInstall w).trace = [] := by
  have := (waitLoop_quiet w 241 0).2
  simp only [parserInputs] at this ⊢
  cases hp : w.IsPostInstallRequired 0 <;>
    simp [WaitForPostInstall, hp, List.filterMap_append, this]

/-- C3. `WaitForPostInstall` ends the process with exit code 73 exactly when
the predicate answers true to more than 240 consecutive polls (polls 0 to 240);
it always either does that or returns; and when poll `k`, one of the first 240,
is the first to answer false, it returns with that poll as its last action,
after `k + 1` polls and `k` sleeps (no sleep at all for `k = 0`). -/
theorem WaitForPostInstall_spec (w : World) :
    ((WaitForPostInstall w).ctl = .exit 73 ↔
        ∀ i, i ≤ 240 → w.IsPostInstallRequired i = true) ∧
    ((WaitForPostInstall w).ctl = .exit 73 ∨ (WaitForPostInstall w).ctl = .done ()) ∧
    (∀ k, k < 240 → w.IsPostInstallRequired k = false →
        (∀ i, i < k → w.IsPostInstallRequired i = true) →
        (WaitForPostInstall w).ctl = .done () ∧
        (WaitForPostInstall w).trace.getLast? = some (.IsPostInstallRequired false) ∧
        pollCount (WaitForPostInstall w).trace = k + 1 ∧
        sleepCount (WaitForPostInstall w).trace = k) := by
  have hcases : (∀ i, i ≤ 240 → w.IsPostInstallRequired i = true) ∨
      ∃ k, k ≤ 240 ∧ w.IsPostInstallRequired k = false := by
    by_cases h : ∀ i, i ≤ 240 → w.IsPostInstallRequired i = true
    · exact Or.inl h
    · right
      push_neg at h
      obtain ⟨k, hk, hv⟩ := h
      exact ⟨k, hk, by simpa using hv⟩
  refine ⟨⟨?_, WaitForPostInstall_exit w⟩, ?_, ?_⟩
  · intro hexit
    rcases hcases with h | h
    · exact h
    · have := WaitForPostInstall_done w h
      rw [this] at hexit
      cases hexit
  · rcases hcases with h | h
    · exact Or.inl (WaitForPostInstall_exit w h)
    · exact Or.inr (WaitForPostInstall_done w h)
  · intro k hk hfalse htrue
    exact WaitForPostInstall_return w k (by omega) hfalse htrue

/-- Instance of C3: with two polls answering true and the third false, the
wait returns after three polls and two sleeps. -/
theorem WaitForPostInstall_spec_witness :
    (WaitForPostInstall slowWorld).ctl = .done () ∧
    (WaitForPostInstall slowWorld).trace.getLast? = some (.IsPostInstallRequired false) ∧
    pollCount (WaitForPostInstall slowWorld).trace = 2 + 1 ∧
    sleepCount (WaitForPostInstall slowWorld).trace = 2 :=
  (WaitForPostInstall_spec slowWorld).2.2 2 (by decide) (by decide) (by decide)

/-! ## The service bootstrap -/

/-- The usage printer without a comment prints the set-up and the blocks. -/
theorem ServiceUsage_empty :
    cmdline.ServiceUsage "" =
      [.ColoredOutputOnStdio true, .DuplicateOnStdio true] ++ cmdline.usageBlocks := by
  simp [cmdline.ServiceUsage]

/-- A text that starts with a non-empty literal is not empty. -/
theorem append_ne_empty (a b : String) (h : a.data ≠ []) : a ++ b ≠ "" := by
  intro he
  have := congrArg String.data he
  simp [String.data_append] at this
  exact h this.1

/-- The usage printer with a non-empty comment prints the set-up, the comment
in red, then the blocks. -/
theorem ServiceUsage_comment (c : String) (h : c ≠ "") :
    cmdline.ServiceUsage c =
      [.ColoredOutputOnStdio true, .DuplicateOnStdio true, .sendStringToStdio c .red]
        ++ cmdline.usageBlocks := by
  simp [cmdline.ServiceUsage, h, ToUtf8]

/-- The run of `RunService`, spelled out. -/
theorem RunService_eq (w : World) (app : String) :
    srv.RunService w app =
      ⟨[.SetModus .service, .ServiceAsService app 1000]
          ++ (if w.ServiceAsService app 1000 = 0 then cmdline.ServiceUsage "" else []),
        .done (if w.ServiceAsService app 1000 = 0 then 0 else 1)⟩ := by
  simp [srv.RunService, emit, ret]

/-- Refutation of C2 as stated: in a world whose service loop reports `0`,
`RunService` prints the usage text and returns `0`; so under neither reading of
that outcome (loop succeeded, loop failed) is usage printed exactly on failure
with return value `0` on success and `1` on failure. -/
theorem RunService_usage_with_exit_zero :
    usagePrinted (srv.RunService calmWorld "agent").trace ∧
    (srv.RunService calmWorld "agent").ctl = .done 0 ∧
    ¬ ∃ succeeded : Bool,
        (usagePrinted (srv.RunService calmWorld "agent").trace ↔ succeeded = false) ∧
        (srv.RunService calmWorld "agent").ctl = .done (if succeeded then 0 else 1) := by
  have hu : usagePrinted (srv.RunService calmWorld "agent").trace := by decide
  have hc : (srv.RunService calmWorld "agent").ctl = .done 0 := by decide
  refine ⟨hu, hc, ?_⟩
  rintro ⟨ok, h1, h2⟩
  have hok : ok = false := h1.mp hu
  subst hok
  rw [hc] at h2
  cases h2

/-- C2, amended. `RunService` prints the usage text exactly when
`ServiceAsService` reports `0`, and it returns `0` in that case and `1` in
every other. -/
theorem RunService_usage_iff_zero (w : World) (app : String) :
    (usagePrinted (srv.RunService w app).trace ↔ w.ServiceAsService app 1000 = 0) ∧
    (srv.RunService w app).ctl =
      .done (if w.ServiceAsService app 1000 = 0 then 0 else 1) := by
  rw [RunService_eq]
  refine ⟨?_, rfl⟩
  by_cases h : w.ServiceAsService app 1000 = 0
  · simp only [h, if_true, iff_true, usagePrinted, ServiceUsage_empty]
    exact ⟨[.SetModus .service, .ServiceAsService app 1000, .ColoredOutputOnStdio true,
      .DuplicateOnStdio true], [], by simp⟩
  · simp only [h, if_false, iff_false, usagePrinted, List.append_nil]
    intro hin
    have := hin.length_le
    simp [cmdline.usageBlocks] at this

/-- C9. With the program path as the only argument, `MainFunction` is the
service bootstrap in every world: after installing the terminate handler it
sets the mode to service, enters the service loop with a 1000 ms tick and
returns what `RunService` returns; it polls nothing and calls neither the
descriptor sub-parser nor an executor. -/
theorem MainFunction_service (K : CmdLine) (w : World) (prog : String) :
    MainFunction K w [prog] = emit [.set_terminate] (srv.RunService w prog) ∧
    (MainFunction K w [prog]).trace =
      [.set_terminate, .SetModus .service, .ServiceAsService prog 1000]
        ++ (if w.ServiceAsService prog 1000 = 0 then cmdline.ServiceUsage "" else []) ∧
    (MainFunction K w [prog]).ctl = (srv.RunService w prog).ctl ∧
    pollCount (MainFunction K w [prog]).trace = 0 ∧
    parserInputs (MainFunction K w [prog]).trace = [] ∧
    executorCalls (MainFunction K w [prog]).trace = [] := by
  have h : MainFunction K w [prog] = emit [.set_terminate] (srv.RunService w prog) := by
    simp [MainFunction]
  rw [h, RunService_eq]
  refine ⟨rfl, rfl, rfl, ?_, ?_, ?_⟩ <;>
    by_cases h0 : w.ServiceAsService prog 1000 = 0 <;>
    simp [h0, pollCount, parserInputs, executorCalls, cmdline.ServiceUsage,
      cmdline.usageBlocks]

/-! ## Unknown leading tokens -/

/-- C1. When the token after the program path is none of the tokens
`MainFunction` compares it with and the first poll of the post-install
predicate answers false, `MainFunction` sets up the output, prints in red the
comment that quotes that token, prints the usage blocks and returns 13; no
executor is called. -/
theorem MainFunction_unknown (K : CmdLine) (w : World) (prog T : String)
    (rest : List String) (hwait : w.IsPostInstallRequired 0 = false)
    (hT : T ∉ K.leadingTokens) :
    MainFunction K w (prog :: T :: rest) =
      ⟨[.set_terminate, .IsPostInstallRequired false, .OnStartApp,
        .ColoredOutputOnStdio true, .DuplicateOnStdio true,
        .sendStringToStdio ("Provided Parameter \"" ++ T ++ "\" is not allowed\n") .red]
        ++ cmdline.usageBlocks, .done 13⟩ ∧
    executorCalls (MainFunction K w (prog :: T :: rest)).trace = [] := by
  have hne : "Provided Parameter \"" ++ T ++ "\" is not allowed\n" ≠ "" := by
    rw [String.append_assoc]
    exact append_ne_empty _ _ (by decide)
  simp only [CmdLine.leadingTokens, List.mem_cons, List.mem_singleton, not_or,
    List.not_mem_nil, not_false_eq_true, and_true] at hT
  have hrun : MainFunction K w (prog :: T :: rest) =
      ⟨[.set_terminate, .IsPostInstallRequired false, .OnStartApp]
        ++ cmdline.ServiceUsage ("Provided Parameter \"" ++ T ++ "\" is not allowed\n"),
        .done 13⟩ := by
    simp [MainFunction, WaitForPostInstall, hwait, Run.bind, Dispatch, hT, usage, emit, ret,
      ToUtf8, ConvertToUtf16]
  rw [hrun, ServiceUsage_comment _ hne]
  refine ⟨rfl, ?_⟩
  simp [executorCalls, cmdline.usageBlocks]

/-- Instance of C1: the token `bogus` in a world where installation is
finished. -/
theorem MainFunction_unknown_witness :
    MainFunction specCmdLine calmWorld ["agent", "bogus"] =
      ⟨[.set_terminate, .IsPostInstallRequired false, .OnStartApp,
        .ColoredOutputOnStdio true, .DuplicateOnStdio true,
        .sendStringToStdio ("Provided Parameter \"" ++ "bogus" ++ "\" is not allowed\n") .red]
        ++ cmdline.usageBlocks, .done 13⟩ ∧
    executorCalls (MainFunction specCmdLine calmWorld ["agent", "bogus"]).trace = [] :=
  MainFunction_unknown specCmdLine calmWorld "agent" "bogus" [] rfl (by decide)

/-! ## From `MainFunction` to the dispatch chain -/

/-- When the wait returns and the leading token is not the run-once token,
`MainFunction` is the wait, `OnStartApp` and the dispatch chain. -/
theorem MainFunction_dispatch (K : CmdLine) (w : World) (prog T : String)
    (rest : List String) (hrun : T ≠ K.kRunOnceParam)
    (hwait : (WaitForPostInstall w).ctl = .done ()) :
    MainFunction K w (prog :: T :: rest) =
      emit (.set_terminate :: (WaitForPostInstall w).trace ++ [.OnStartApp])
        (Dispatch K w (prog :: T :: rest) T) := by
  simp [MainFunction, bind_of_done _ _ _ hwait, ToUtf8, hrun, emit]

/-- When the wait ends the process, so does `MainFunction`, whatever follows
the program path. -/
theorem MainFunction_blocked (K : CmdLine) (w : World) (prog T : String)
    (rest : List String) (hwait : (WaitForPostInstall w).ctl = .exit 73) :
    MainFunction K w (prog :: T :: rest) =
      ⟨.set_terminate :: (WaitForPostInstall w).trace, .exit 73⟩ := by
  simp [MainFunction, bind_of_exit _ _ _ hwait, emit]

/-- In the world where the predicate never turns false `MainFunction` ends the
process with code 73 and calls no executor. -/
theorem MainFunction_stuck (K : CmdLine) (prog T : String) (rest : List String) :
    (MainFunction K stuckWorld (prog :: T :: rest)).ctl = .exit 73 ∧
    executorCalls (MainFunction K stuckWorld (prog :: T :: rest)).trace = [] := by
  have hexit := WaitForPostInstall_exit stuckWorld (fun _ _ => rfl)
  have hq := WaitForPostInstall_executorCalls stuckWorld
  rw [MainFunction_blocked K stuckWorld prog T rest hexit]
  refine ⟨rfl, ?_⟩
  simp only [executorCalls] at hq ⊢
  simp [List.filterMap_cons, hq]

/-- Executor calls and outcome of `MainFunction` are those of the dispatch
chain when the wait returns. -/
theorem MainFunction_calls (K : CmdLine) (w : World) (prog T : String)
    (rest : List String) (hrun : T ≠ K.kRunOnceParam)
    (hwait : (WaitForPostInstall w).ctl = .done ()) :
    executorCalls (MainFunction K w (prog :: T :: rest)).trace =
      executorCalls (Dispatch K w (prog :: T :: rest) T).trace ∧
    (MainFunction K w (prog :: T :: rest)).ctl = (Dispatch K w (prog :: T :: rest) T).ctl ∧
    (MainFunction K w (prog :: T :: rest)).trace =
      .set_terminate :: (WaitForPostInstall w).trace ++ [.OnStartApp] ++
        (Dispatch K w (prog :: T :: rest) T).trace := by
  have hq := WaitForPostInstall_executorCalls w
  rw [MainFunction_dispatch K w prog T rest hrun hwait]
  refine ⟨?_, rfl, by simp⟩
  simp only [executorCalls] at hq ⊢
  simp [List.filterMap_cons, List.filterMap_append, hq]

/-- The usage printer calls no executor. -/
theorem usage_calls (c : String) (code : Int) :
    executorCalls (usage c code).trace = [] ∧ (usage c code).ctl = .done code ∧
    (usage c code).trace = cmdline.ServiceUsage c := by
  refine ⟨?_, rfl, by simp [usage]⟩
  by_cases h : c = "" <;>
    simp [usage, executorCalls, cmdline.ServiceUsage, cmdline.usageBlocks, h]

/-- An executor call is the only call of its run and gives the outcome. -/
theorem call_calls (w : World) (e : Exec) :
    executorCalls (call w e).trace = [e] ∧ (call w e).ctl = .done (w.exec e) := by
  simp [call, executorCalls]

/-- Distinct leading tokens differ pairwise, read in either direction. -/
theorem Distinct_facts (K : CmdLine) (hK : K.Distinct) :
    K.leadingTokens.Pairwise (· ≠ ·) ∧ K.leadingTokens.reverse.Pairwise (· ≠ ·) :=
  ⟨hK, List.nodup_reverse.mpr hK⟩

/-- A command token other than the run-once token differs from it. -/
theorem Distinct_runonce (K : CmdLine) (hK : K.Distinct) (T : String)
    (hT : T ∈ K.leadingTokens.tail) : T ≠ K.kRunOnceParam := by
  intro e
  have h : K.kRunOnceParam ∉ K.leadingTokens.tail := (List.nodup_cons.mp hK).1
  exact h (e ▸ hT)

/-! ## The `cvt` branch -/

/-- The dispatch chain on the `cvt` token, by the shape of what follows. -/
theorem Dispatch_cvt (K : CmdLine) (w : World) (hK : K.Distinct) (prog : String)
    (rest : List String) :
    Dispatch K w (prog :: K.kCvtParam :: rest) K.kCvtParam =
      match rest with
      | [] => usage ("Invalid count of parameters for " ++ K.kCvtParam ++ "\n") 2
      | [a] =>
        if a = K.kCvtParamShow then
          usage ("inifile is mandatory to call " ++ K.kCvtParam ++ "\n") 2
        else call w (.ExecCvtIniYaml a "" .no)
      | a :: b :: more =>
        if a = K.kCvtParamShow then call w (.ExecCvtIniYaml b (more.headD "") .yes)
        else call w (.ExecCvtIniYaml a b .no) := by
  have h := Distinct_facts K hK
  simp only [CmdLine.leadingTokens, List.reverse_cons, List.reverse_nil, List.nil_append,
    List.cons_append, List.pairwise_cons, List.mem_cons, List.mem_singleton, forall_eq_or_imp,
    forall_eq, ne_eq, List.not_mem_nil, IsEmpty.forall_iff, implies_true, List.Pairwise.nil,
    and_true] at h
  rcases rest with _ | ⟨a, _ | ⟨b, more⟩⟩
  · simp [Dispatch, h, ConvertToUtf16]
  · by_cases ha : a = K.kCvtParamShow <;>
      simp [Dispatch, h, ConvertToUtf16, tools.CheckArgvForValue, ha]
  · by_cases ha : a = K.kCvtParamShow <;> cases more <;>
      simp [Dispatch, h, ConvertToUtf16, tools.CheckArgvForValue, ha]

/-- Refutation of C4 as stated: while the post-install predicate stays true,
`cvt` without a further token ends the process with code 73 instead of
returning 2, and `cvt a.ini` never reaches the conversion executor. -/
theorem MainFunction_cvt_blocked :
    (MainFunction specCmdLine stuckWorld ["agent", "cvt"]).ctl = .exit 73 ∧
    (MainFunction specCmdLine stuckWorld ["agent", "cvt"]).ctl ≠ .done 2 ∧
    executorCalls (MainFunction specCmdLine stuckWorld ["agent", "cvt", "a.ini"]).trace = [] := by
  have h1 := MainFunction_stuck specCmdLine "agent" "cvt" []
  have h2 := MainFunction_stuck specCmdLine "agent" "cvt" ["a.ini"]
  refine ⟨h1.1, ?_, h2.2⟩
  rw [h1.1]
  intro h
  cases h

/-- C4, amended. Whenever the post-install wait returns (one of the first 241
polls answers false) and the leading token is the cvt token: with no further
token, or the show flag as the only further token, `MainFunction` prints the
usage text with a comment and returns 2 without calling an executor; otherwise
its only executor call is the conversion, with the token at position `pos` as
input (`pos` is 3 when the token after cvt is the show flag, else 2), the token
at `pos + 1` as output (empty when absent) and echo on exactly with the show
flag, and it returns the executor's result. -/
theorem MainFunction_cvt (K : CmdLine) (w : World) (hK : K.Distinct) (prog : String)
    (rest : List String) (hwait : ∃ k, k ≤ 240 ∧ w.IsPostInstallRequired k = false) :
    ((rest = [] ∨ rest = [K.kCvtParamShow]) →
      (∃ comment, comment ≠ "" ∧ (MainFunction K w (prog :: K.kCvtParam :: rest)).trace =
        .set_terminate :: (WaitForPostInstall w).trace ++ [.OnStartApp] ++
          cmdline.ServiceUsage comment) ∧
      (MainFunction K w (prog :: K.kCvtParam :: rest)).ctl = .done 2 ∧
      executorCalls (MainFunction K w (prog :: K.kCvtParam :: rest)).trace = []) ∧
    (¬ (rest = [] ∨ rest = [K.kCvtParamShow]) →
      executorCalls (MainFunction K w (prog :: K.kCvtParam :: rest)).trace =
        [.ExecCvtIniYaml
          ((prog :: K.kCvtParam :: rest).getD (if rest.head? = some K.kCvtParamShow then 3 else 2) "")
          ((prog :: K.kCvtParam :: rest).getD
            ((if rest.head? = some K.kCvtParamShow then 3 else 2) + 1) "")
          (if rest.head? = some K.kCvtParamShow then .yes else .no)] ∧
      (MainFunction K w (prog :: K.kCvtParam :: rest)).ctl =
        .done (w.exec (.ExecCvtIniYaml
          ((prog :: K.kCvtParam :: rest).getD (if rest.head? = some K.kCvtParamShow then 3 else 2) "")
          ((prog :: K.kCvtParam :: rest).getD
            ((if rest.head? = some K.kCvtParamShow then 3 else 2) + 1) "")
          (if rest.head? = some K.kCvtParamShow then .yes else .no)))) := by
  have hrun : K.kCvtParam ≠ K.kRunOnceParam :=
    Distinct_runonce K hK _ (by simp [CmdLine.leadingTokens])
  obtain ⟨hc, hctl, htr⟩ :=
    MainFunction_calls K w prog K.kCvtParam rest hrun (WaitForPostInstall_done w hwait)
  rw [hc, hctl, htr, Dispatch_cvt K w hK prog rest]
  constructor
  · rintro (h | h)
    · subst h
      refine ⟨⟨_, ?_, by rw [(usage_calls _ _).2.2]⟩, (usage_calls _ _).2.1, (usage_calls _ _).1⟩
      rw [String.append_assoc]
      exact append_ne_empty _ _ (by decide)
    · subst h
      simp only [if_true]
      refine ⟨⟨_, ?_, by rw [(usage_calls _ _).2.2]⟩, (usage_calls _ _).2.1, (usage_calls _ _).1⟩
      rw [String.append_assoc]
      exact append_ne_empty _ _ (by decide)
  · intro hn
    rcases rest with _ | ⟨a, _ | ⟨b, more⟩⟩
    · simp at hn
    · have ha : a ≠ K.kCvtParamShow := by
        intro e; apply hn; right; rw [e]
      simp [ha, call_calls]
    · by_cases ha : a = K.kCvtParamShow <;> cases more <;> simp [ha, call_calls]

/-- Instance of C4, amended: `cvt show a.ini b.yml` after two polls that
answer true. -/
theorem MainFunction_cvt_witness :
    executorCalls
        (MainFunction specCmdLine slowWorld ["agent", "cvt", "show", "a.ini", "b.yml"]).trace =
      [.ExecCvtIniYaml "a.ini" "b.yml" .yes] ∧
    (MainFunction specCmdLine slowWorld ["agent", "cvt", "show", "a.ini", "b.yml"]).ctl =
      .done (slowWorld.exec (.ExecCvtIniYaml "a.ini" "b.yml" .yes)) :=
  (MainFunction_cvt specCmdLine slowWorld (by decide) "agent" ["show", "a.ini", "b.yml"]
    ⟨2, by decide, rfl⟩).2 (by decide)

/-! ## The `firewall` branch -/

/-- The dispatch chain on the `firewall` token, by the shape of what follows. -/
theorem Dispatch_fw (K : CmdLine) (w : World) (hK : K.Distinct) (prog : String)
    (rest : List String) :
    Dispatch K w (prog :: K.kFwParam :: rest) K.kFwParam =
      match rest with
      | [] => call w (.ExecFirewall .show prog "")
      | a :: _ =>
        if a = K.kFwConfigureParam then
          call w (.ExecFirewall .configure prog K.kAppFirewallRuleName)
        else if a = K.kFwClearParam then
          call w (.ExecFirewall .clear prog K.kAppFirewallRuleName)
        else usage ("Invalid parameter for " ++ K.kFwParam ++ "\n") 2 := by
  have h := Distinct_facts K hK
  simp only [CmdLine.leadingTokens, List.reverse_cons, List.reverse_nil, List.nil_append,
    List.cons_append, List.pairwise_cons, List.mem_cons, List.mem_singleton, forall_eq_or_imp,
    forall_eq, ne_eq, List.not_mem_nil, IsEmpty.forall_iff, implies_true, List.Pairwise.nil,
    and_true] at h
  rcases rest with _ | ⟨a, more⟩
  · simp [Dispatch, h]
  · by_cases ha : a = K.kFwConfigureParam <;> by_cases hb : a = K.kFwClearParam <;>
      simp [Dispatch, h, ConvertToUtf16, tools.CheckArgvForValue, ha, hb]

/-- Refutation of C7 as stated: while the post-install predicate stays true,
`firewall` alone calls no executor, and `firewall bogus` ends the process with
code 73 instead of returning 2. -/
theorem MainFunction_fw_blocked :
    executorCalls (MainFunction specCmdLine stuckWorld ["agent", "firewall"]).trace = [] ∧
    (MainFunction specCmdLine stuckWorld ["agent", "firewall", "bogus"]).ctl = .exit 73 ∧
    (MainFunction specCmdLine stuckWorld ["agent", "firewall", "bogus"]).ctl ≠ .done 2 := by
  have h1 := MainFunction_stuck specCmdLine "agent" "firewall" []
  have h2 := MainFunction_stuck specCmdLine "agent" "firewall" ["bogus"]
  refine ⟨h1.2, h2.1, ?_⟩
  rw [h2.1]
  intro h
  cases h

/-- C7, amended. Whenever the post-install wait returns and the leading token
is the firewall token: with no further token the only executor call is the
firewall executor in show mode; with the configure flag (the clear flag) next
it is the firewall executor in configure (clear) mode with the application rule
name; in these cases the executor's result is returned; with any other next
token the usage text is printed with a comment, 2 is returned and no executor
is called. -/
theorem MainFunction_fw (K : CmdLine) (w : World) (hK : K.Distinct)
    (hflags : K.kFwConfigureParam ≠ K.kFwClearParam) (prog : String) (rest : List String)
    (hwait : ∃ k, k ≤ 240 ∧ w.IsPostInstallRequired k = false) :
    (rest = [] →
      executorCalls (MainFunction K w (prog :: K.kFwParam :: rest)).trace =
        [.ExecFirewall .show prog ""] ∧
      (MainFunction K w (prog :: K.kFwParam :: rest)).ctl =
        .done (w.exec (.ExecFirewall .show prog ""))) ∧
    (rest.head? = some K.kFwConfigureParam →
      executorCalls (MainFunction K w (prog :: K.kFwParam :: rest)).trace =
        [.ExecFirewall .configure prog K.kAppFirewallRuleName] ∧
      (MainFunction K w (prog :: K.kFwParam :: rest)).ctl =
        .done (w.exec (.ExecFirewall .configure prog K.kAppFirewallRuleName))) ∧
    (rest.head? = some K.kFwClearParam →
      executorCalls (MainFunction K w (prog :: K.kFwParam :: rest)).trace =
        [.ExecFirewall .clear prog K.kAppFirewallRuleName] ∧
      (MainFunction K w (prog :: K.kFwParam :: rest)).ctl =
        .done (w.exec (.ExecFirewall .clear prog K.kAppFirewallRuleName))) ∧
    (∀ a, rest.head? = some a → a ≠ K.kFwConfigureParam → a ≠ K.kFwClearParam →
      (∃ comment, comment ≠ "" ∧ (MainFunction K w (prog :: K.kFwParam :: rest)).trace =
        .set_terminate :: (WaitForPostInstall w).trace ++ [.OnStartApp] ++
          cmdline.ServiceUsage comment) ∧
      (MainFunction K w (prog :: K.kFwParam :: rest)).ctl = .done 2 ∧
      executorCalls (MainFunction K w (prog :: K.kFwParam :: rest)).trace = []) := by
  have hrun : K.kFwParam ≠ K.kRunOnceParam :=
    Distinct_runonce K hK _ (by simp [CmdLine.leadingTokens])
  obtain ⟨hc, hctl, htr⟩ :=
    MainFunction_calls K w prog K.kFwParam rest hrun (WaitForPostInstall_done w hwait)
  rw [hc, hctl, htr, Dispatch_fw K w hK prog rest]
  refine ⟨?_, ?_, ?_, ?_⟩
  · intro h
    subst h
    simp [call_calls]
  · intro h
    rcases rest with _ | ⟨a, more⟩
    · simp at h
    · simp only [List.head?_cons, Option.some.injEq] at h
      simp [h, call_calls]
  · intro h
    rcases rest with _ | ⟨a, more⟩
    · simp at h
    · simp only [List.head?_cons, Option.some.injEq] at h
      simp [h, call_calls, hflags.symm]
  · intro a h h1 h2
    rcases rest with _ | ⟨b, more⟩
    · simp at h
    · simp only [List.head?_cons, Option.some.injEq] at h
      subst h
      simp only [h1, h2, if_false]
      refine ⟨⟨_, ?_, by rw [(usage_calls _ _).2.2]⟩, (usage_calls _ _).2.1, (usage_calls _ _).1⟩
      rw [String.append_assoc]
      exact append_ne_empty _ _ (by decide)

/-- Instance of C7, amended: `firewall clear` after two polls that answer
true. -/
theorem MainFunction_fw_witness :
    executorCalls (MainFunction specCmdLine slowWorld ["agent", "firewall", "clear"]).trace =
      [.ExecFirewall .clear "agent" specCmdLine.kAppFirewallRuleName] ∧
    (MainFunction specCmdLine slowWorld ["agent", "firewall", "clear"]).ctl =
      .done (slowWorld.exec (.ExecFirewall .clear "agent" specCmdLine.kAppFirewallRuleName)) :=
  (MainFunction_fw specCmdLine slowWorld (by decide) (by decide) "agent" ["clear"]
    ⟨2, by decide, rfl⟩).2.2.1 rfl

/-! ## The `check` branch -/

/-- The dispatch chain on the `check` token: the sub-test token is the token
after it (empty when absent), the interval comes from the token after that. -/
theorem Dispatch_check (K : CmdLine) (w : World) (hK : K.Distinct) (prog : String)
    (rest : List String) :
    Dispatch K w (prog :: K.kCheckParam :: rest) K.kCheckParam =
      CheckMainService K w (rest.headD "")
        (match (prog :: K.kCheckParam :: rest)[3]? with
          | some t => ToInt t 0
          | none => 0) := by
  have h := Distinct_facts K hK
  simp only [CmdLine.leadingTokens, List.reverse_cons, List.reverse_nil, List.nil_append,
    List.cons_append, List.pairwise_cons, List.mem_cons, List.mem_singleton, forall_eq_or_imp,
    forall_eq, ne_eq, List.not_mem_nil, IsEmpty.forall_iff, implies_true, List.Pairwise.nil,
    and_true] at h
  rcases rest with _ | ⟨a, _ | ⟨b, more⟩⟩ <;> simp [Dispatch, h]

/-- A token without a digit in the place where the number is read makes
`ToInt` fall back to the default. -/
theorem ToInt_not_numeric (t : String) (d : Int) (h : scanInteger t = none) :
    ToInt t d = d := by
  simp [ToInt, stoi, h]

/-- What `ToInt` returns once the scan of the token is known. -/
theorem ToInt_of_scan (t : String) (neg : Bool) (mag : Nat) (d : Int)
    (h : scanInteger t = some (neg, mag)) :
    ToInt t d =
      (if -(2 : Int) ^ 31 ≤ (if neg then -(mag : Int) else mag) ∧
          (if neg then -(mag : Int) else mag) ≤ (2 : Int) ^ 31 - 1
        then (if neg then -(mag : Int) else mag) else d) := by
  cases neg <;>
    simp only [ToInt, stoi, h, Bool.false_eq_true, if_false, if_true] <;>
    split_ifs <;> first | rfl | (exfalso; omega)

/-- What `ToInt64` returns once the scan of the token is known. -/
theorem ToInt64_of_scan (t : String) (neg : Bool) (mag : Nat) (d : Int)
    (h : scanInteger t = some (neg, mag)) :
    ToInt64 t d =
      (if -(2 : Int) ^ 63 ≤ (if neg then -(mag : Int) else mag) ∧
          (if neg then -(mag : Int) else mag) ≤ (2 : Int) ^ 63 - 1
        then (if neg then -(mag : Int) else mag) else d) := by
  cases neg <;>
    simp only [ToInt64, stoll, h, Bool.false_eq_true, if_false, if_true] <;>
    split_ifs <;> first | rfl | (exfalso; omega)

/-- What the unsigned helpers return once the scan found a number without a
minus sign. -/
theorem ToUInt_of_scan (t : String) (mag : Nat) (u : Nat)
    (h : scanInteger t = some (false, mag)) :
    ToUInt t u = (if mag ≤ 2 ^ 32 - 1 then mag else u) ∧
    ToUInt64 t u = (if mag ≤ 2 ^ 64 - 1 then mag else u) := by
  constructor
  · simp only [ToUInt, stoul, h, Bool.false_eq_true, if_false]
    split_ifs <;> first | rfl | (exfalso; omega) | exact Nat.mod_eq_of_lt (by omega)
  · simp only [ToUInt64, stoull, h, Bool.false_eq_true, if_false]
    split_ifs <;> first | rfl | (exfalso; omega)

/-- Refutation of C8 as stated: while the post-install predicate stays true,
`check mt` reaches no sub-executor and `check bogus` ends the process with code
73 instead of returning 0; and when installation is finished, `check self 5x`,
whose third token is not a number, hands interval 5 to the self test, not 0. -/
theorem MainFunction_check_blocked :
    executorCalls (MainFunction specCmdLine stuckWorld ["agent", "check", "mt"]).trace = [] ∧
    (MainFunction specCmdLine stuckWorld ["agent", "check", "bogus"]).ctl = .exit 73 ∧
    (MainFunction specCmdLine stuckWorld ["agent", "check", "bogus"]).ctl ≠ .done 0 ∧
    executorCalls (MainFunction specCmdLine calmWorld ["agent", "check", "self", "5x"]).trace =
      [.TestMainServiceSelf 5] := by
  have h1 := MainFunction_stuck specCmdLine "agent" "check" ["mt"]
  have h2 := MainFunction_stuck specCmdLine "agent" "check" ["bogus"]
  refine ⟨h1.2, h2.1, ?_, by decide⟩
  rw [h2.1]
  intro h
  cases h

/-- C8, amended. Whenever the post-install wait returns and the leading token
is the check token: the sub-test tokens mt, io and self make the main-thread
test, the io test and the self test the only executor call, and its result is
returned; the self test gets `ToInt` of the token at position 3 with default 0:
0 when that token is absent or no number is read at its start, and otherwise
the number read at its start (white space and one optional sign skipped, text
after the digits ignored) when it lies in the 32-bit signed range, else 0; with
any other sub-test token, or none, no executor is called and 0 is returned. -/
theorem MainFunction_check (K : CmdLine) (w : World) (hK : K.Distinct)
    (hsub : ["", K.kCheckParamMt, K.kCheckParamIo, K.kCheckParamSelf].Nodup)
    (prog : String) (rest : List String)
    (hwait : ∃ k, k ≤ 240 ∧ w.IsPostInstallRequired k = false) :
    (rest.head? = some K.kCheckParamMt →
      executorCalls (MainFunction K w (prog :: K.kCheckParam :: rest)).trace = [.TestMt] ∧
      (MainFunction K w (prog :: K.kCheckParam :: rest)).ctl = .done (w.exec .TestMt)) ∧
    (rest.head? = some K.kCheckParamIo →
      executorCalls (MainFunction K w (prog :: K.kCheckParam :: rest)).trace = [.TestIo] ∧
      (MainFunction K w (prog :: K.kCheckParam :: rest)).ctl = .done (w.exec .TestIo)) ∧
    (rest.head? = some K.kCheckParamSelf →
      executorCalls (MainFunction K w (prog :: K.kCheckParam :: rest)).trace =
        [.TestMainServiceSelf
          (match (prog :: K.kCheckParam :: rest)[3]? with
            | some t => ToInt t 0
            | none => 0)] ∧
      (MainFunction K w (prog :: K.kCheckParam :: rest)).ctl =
        .done (w.exec (.TestMainServiceSelf
          (match (prog :: K.kCheckParam :: rest)[3]? with
            | some t => ToInt t 0
            | none => 0))) ∧
      (((prog :: K.kCheckParam :: rest)[3]? = none ∨
          ∃ t, (prog :: K.kCheckParam :: rest)[3]? = some t ∧ scanInteger t = none) →
        executorCalls (MainFunction K w (prog :: K.kCheckParam :: rest)).trace =
          [.TestMainServiceSelf 0]) ∧
      (∀ t neg mag, (prog :: K.kCheckParam :: rest)[3]? = some t →
          scanInteger t = some (neg, mag) →
        executorCalls (MainFunction K w (prog :: K.kCheckParam :: rest)).trace =
          [.TestMainServiceSelf
            (if -(2 : Int) ^ 31 ≤ (if neg then -(mag : Int) else mag) ∧
                (if neg then -(mag : Int) else mag) ≤ (2 : Int) ^ 31 - 1
              then (if neg then -(mag : Int) else mag) else 0)])) ∧
    ((rest = [] ∨ ∃ a, rest.head? = some a ∧ a ≠ K.kCheckParamMt ∧ a ≠ K.kCheckParamIo ∧
          a ≠ K.kCheckParamSelf) →
      executorCalls (MainFunction K w (prog :: K.kCheckParam :: rest)).trace = [] ∧
      (MainFunction K w (prog :: K.kCheckParam :: rest)).ctl = .done 0) := by
  have hrun : K.kCheckParam ≠ K.kRunOnceParam :=
    Distinct_runonce K hK _ (by simp [CmdLine.leadingTokens])
  obtain ⟨hc, hctl, -⟩ :=
    MainFunction_calls K w prog K.kCheckParam rest hrun (WaitForPostInstall_done w hwait)
  rw [hc, hctl, Dispatch_check K w hK prog rest]
  simp only [List.nodup_cons, List.mem_cons, List.mem_singleton, not_or, List.not_mem_nil,
    not_false_eq_true, List.nodup_nil, and_true] at hsub
  obtain ⟨⟨e1, e2, e3⟩, ⟨m1, m2⟩, i1⟩ := hsub
  have hquiet : ∀ a i, a ≠ K.kCheckParamMt → a ≠ K.kCheckParamIo → a ≠ K.kCheckParamSelf →
      executorCalls (CheckMainService K w a i).trace = [] ∧
      (CheckMainService K w a i).ctl = .done 0 := by
    intro a i h1 h2 h3
    simp [CheckMainService, ToUtf8, h1, h2, h3, executorCalls]
  refine ⟨?_, ?_, ?_, ?_⟩
  · intro h
    rcases rest with _ | ⟨a, more⟩
    · simp at h
    · simp only [List.head?_cons, Option.some.injEq] at h
      subst h
      simp [CheckMainService, ToUtf8, call_calls]
  · intro h
    rcases rest with _ | ⟨a, more⟩
    · simp at h
    · simp only [List.head?_cons, Option.some.injEq] at h
      subst h
      simp [CheckMainService, ToUtf8, call_calls, Ne.symm m1]
  · intro h
    rcases rest with _ | ⟨a, more⟩
    · simp at h
    · simp only [List.head?_cons, Option.some.injEq] at h
      subst h
      have hself : ∀ i, CheckMainService K w K.kCheckParamSelf i =
          call w (.TestMainServiceSelf i) := by
        intro i
        simp [CheckMainService, ToUtf8, Ne.symm m2, Ne.symm i1]
      simp only [List.headD_cons, hself, (call_calls _ _).1, (call_calls _ _).2, true_and]
      constructor
      · rintro (hnone | ⟨t, ht, hscan⟩)
        · rw [hnone]
        · rw [ht]
          simp [ToInt_not_numeric t 0 hscan]
      · intro t neg mag ht hscan
        rw [ht]
        simp only [ToInt_of_scan t neg mag 0 hscan]
  · rintro (h | ⟨a, h, h1, h2, h3⟩)
    · subst h
      exact hquiet "" _ e1 e2 e3
    · rcases rest with _ | ⟨b, more⟩
      · simp at h
      · simp only [List.head?_cons, Option.some.injEq] at h
        subst h
        exact hquiet _ _ h1 h2 h3

/-- Instance of C8, amended: `check self 5x` after two polls that answer
true runs the self test with interval 5. -/
theorem MainFunction_check_witness :
    executorCalls (MainFunction specCmdLine slowWorld ["agent", "check", "self", "5x"]).trace =
      [.TestMainServiceSelf 5] :=
  ((MainFunction_check specCmdLine slowWorld (by decide) (by decide) "agent" ["self", "5x"]
      ⟨2, by decide, rfl⟩).2.2.1 rfl).2.2.2 "5x" false 5 rfl (by decide)

/-! ## `section` and `extract-cap` without their arguments -/

/-- The dispatch chain on the bare `section` token ends in the last branch. -/
theorem Dispatch_section_bare (K : CmdLine) (w : World) (hK : K.Distinct) (prog : String) :
    Dispatch K w [prog, K.kSectionParam] K.kSectionParam =
      usage ("Provided Parameter \"" ++ K.kSectionParam ++ "\" is not allowed\n") 13 := by
  have h := Distinct_facts K hK
  simp only [CmdLine.leadingTokens, List.reverse_cons, List.reverse_nil, List.nil_append,
    List.cons_append, List.pairwise_cons, List.mem_cons, List.mem_singleton, forall_eq_or_imp,
    forall_eq, ne_eq, List.not_mem_nil, IsEmpty.forall_iff, implies_true, List.Pairwise.nil,
    and_true] at h
  simp [Dispatch, h, ConvertToUtf16]

/-- The dispatch chain on the `extract-cap` token with fewer than two further
tokens ends in the last branch. -/
theorem Dispatch_extract_short (K : CmdLine) (w : World) (hK : K.Distinct) (prog : String)
    (rest : List String) (hlen : rest.length < 2) :
    Dispatch K w (prog :: K.kCapExtractParam :: rest) K.kCapExtractParam =
      usage ("Provided Parameter \"" ++ K.kCapExtractParam ++ "\" is not allowed\n") 13 := by
  have h := Distinct_facts K hK
  simp only [CmdLine.leadingTokens, List.reverse_cons, List.reverse_nil, List.nil_append,
    List.cons_append, List.pairwise_cons, List.mem_cons, List.mem_singleton, forall_eq_or_imp,
    forall_eq, ne_eq, List.not_mem_nil, IsEmpty.forall_iff, implies_true, List.Pairwise.nil,
    and_true] at h
  have hlen2 : ¬ 3 < rest.length + 1 + 1 := by omega
  simp [Dispatch, h, ConvertToUtf16, hlen2]

/-- Refutation of C10 as stated: while the post-install predicate stays true,
the bare `section` token and the bare `extract-cap` token end the process with
code 73 instead of returning 13. -/
theorem MainFunction_section_blocked :
    (MainFunction specCmdLine stuckWorld ["agent", "section"]).ctl = .exit 73 ∧
    (MainFunction specCmdLine stuckWorld ["agent", "section"]).ctl ≠ .done 13 ∧
    (MainFunction specCmdLine stuckWorld ["agent", "extract-cap"]).ctl = .exit 73 := by
  have h1 := MainFunction_stuck specCmdLine "agent" "section" []
  have h2 := MainFunction_stuck specCmdLine "agent" "extract-cap" []
  refine ⟨h1.1, ?_, h2.1⟩
  rw [h1.1]
  intro h
  cases h

/-- C10, amended. Whenever the post-install wait returns: the section token
with nothing after it, and the extract-cap token with fewer than two tokens
after it, run as an unknown leading token does: output set-up, the comment that
quotes the leading token in red, the usage blocks, return value 13, and no
executor call (so neither the section nor the extract-cap executor). -/
theorem MainFunction_missing_args (K : CmdLine) (w : World) (hK : K.Distinct)
    (prog : String) (rest : List String) (hlen : rest.length < 2)
    (hwait : ∃ k, k ≤ 240 ∧ w.IsPostInstallRequired k = false) :
    (MainFunction K w [prog, K.kSectionParam] =
      ⟨.set_terminate :: (WaitForPostInstall w).trace ++
        [.OnStartApp, .ColoredOutputOnStdio true, .DuplicateOnStdio true,
         .sendStringToStdio
            ("Provided Parameter \"" ++ K.kSectionParam ++ "\" is not allowed\n") .red]
        ++ cmdline.usageBlocks, .done 13⟩ ∧
      executorCalls (MainFunction K w [prog, K.kSectionParam]).trace = []) ∧
    (MainFunction K w (prog :: K.kCapExtractParam :: rest) =
      ⟨.set_terminate :: (WaitForPostInstall w).trace ++
        [.OnStartApp, .ColoredOutputOnStdio true, .DuplicateOnStdio true,
         .sendStringToStdio
            ("Provided Parameter \"" ++ K.kCapExtractParam ++ "\" is not allowed\n") .red]
        ++ cmdline.usageBlocks, .done 13⟩ ∧
      executorCalls (MainFunction K w (prog :: K.kCapExtractParam :: rest)).trace = []) := by
  have hdone := WaitForPostInstall_done w hwait
  have hne : ∀ T : String, "Provided Parameter \"" ++ T ++ "\" is not allowed\n" ≠ "" := by
    intro T
    rw [String.append_assoc]
    exact append_ne_empty _ _ (by decide)
  have hrun1 : K.kSectionParam ≠ K.kRunOnceParam :=
    Distinct_runonce K hK _ (by simp [CmdLine.leadingTokens])
  have hrun2 : K.kCapExtractParam ≠ K.kRunOnceParam :=
    Distinct_runonce K hK _ (by simp [CmdLine.leadingTokens])
  constructor
  · obtain ⟨hc, -, -⟩ := MainFunction_calls K w prog K.kSectionParam [] hrun1 hdone
    refine ⟨?_, ?_⟩
    · rw [MainFunction_dispatch K w prog K.kSectionParam [] hrun1 hdone,
        Dispatch_section_bare K w hK prog]
      simp [usage, emit, ret, ServiceUsage_comment _ (hne _)]
    · rw [hc, Dispatch_section_bare K w hK prog]
      exact (usage_calls _ _).1
  · obtain ⟨hc, -, -⟩ := MainFunction_calls K w prog K.kCapExtractParam rest hrun2 hdone
    refine ⟨?_, ?_⟩
    · rw [MainFunction_dispatch K w prog K.kCapExtractParam rest hrun2 hdone,
        Dispatch_extract_short K w hK prog rest hlen]
      simp [usage, emit, ret, ServiceUsage_comment _ (hne _)]
    · rw [hc, Dispatch_extract_short K w hK prog rest hlen]
      exact (usage_calls _ _).1

/-- Instance of C10, amended: `extract-cap plugins.cap` after two polls that
answer true. -/
theorem MainFunction_missing_args_witness :
    (MainFunction specCmdLine slowWorld ["agent", "extract-cap", "plugins.cap"]).ctl = .done 13 ∧
    executorCalls
      (MainFunction specCmdLine slowWorld ["agent", "extract-cap", "plugins.cap"]).trace = [] :=
  ⟨congrArg Run.ctl
      (MainFunction_missing_args specCmdLine slowWorld (by decide) "agent" ["plugins.cap"]
        (by decide) ⟨2, by decide, rfl⟩).2.1,
   (MainFunction_missing_args specCmdLine slowWorld (by decide) "agent" ["plugins.cap"]
        (by decide) ⟨2, by decide, rfl⟩).2.2⟩

/-! ## Run-once: the counters -/

/-- The counter loop collects the tokens before the first sentinel. -/
theorem collectCounters_eq (l : List String) :
    collectCounters l = l.takeWhile (fun a => a != "#") := by
  induction l with
  | nil => rfl
  | cons a rest ih =>
    by_cases h : "#" = a
    · subst h
      simp [collectCounters]
    · have h2 : a ≠ "#" := fun e => h e.symm
      simp [collectCounters, h, h2, ih]

/-- The run of `ProcessWinperfAt` when the sub-parser reports no error. -/
theorem ProcessWinperfAt_accepted (w : World) (args : List String) (offset : Nat)
    (hacc : (w.ParseExeCommandLine (args.drop offset)).error_code = 0) :
    parserInputs (ProcessWinperfAt w args offset).trace = [args.drop offset] ∧
    executorCalls (ProcessWinperfAt w args offset).trace =
      (match args[offset + 1]? with
        | none => []
        | some port =>
          [.RunPerf (w.ParseExeCommandLine (args.drop offset)).name port
            (w.ParseExeCommandLine (args.drop offset)).id_val
            (ToInt (w.ParseExeCommandLine (args.drop offset)).timeout_val 20)
            ((args.drop (4 + offset)).takeWhile (fun a => a != "#"))]) ∧
    (ProcessWinperfAt w args offset).ctl =
      (match args[offset + 1]? with
        | none => .undefined
        | some port =>
          .done (w.exec (.RunPerf (w.ParseExeCommandLine (args.drop offset)).name port
            (w.ParseExeCommandLine (args.drop offset)).id_val
            (ToInt (w.ParseExeCommandLine (args.drop offset)).timeout_val 20)
            ((args.drop (4 + offset)).takeWhile (fun a => a != "#"))))) := by
  cases hp : args[offset + 1]? <;>
    simp [ProcessWinperfAt, hacc, hp, parserInputs, executorCalls, call, collectCounters_eq]

/-- Refutation of C5 as stated: with two `@` tokens in front, an applied
redirect and a sub-parser that accepts what follows it, sub-parser input, port
token and counters differ from those of the list without the redirect token,
because that list is read with a redirect of its own. -/
theorem ProcessWinperf_two_redirects :
    calmWorld.redirectThrows "a" = false ∧
    (calmWorld.ParseExeCommandLine ["@b", "n", "i", "5", "c1", "c2"]).error_code = 0 ∧
    parserInputs (ProcessWinperf calmWorld ["@a", "@b", "n", "i", "5", "c1", "c2"]).trace =
      [["@b", "n", "i", "5", "c1", "c2"]] ∧
    executorCalls (ProcessWinperf calmWorld ["@a", "@b", "n", "i", "5", "c1", "c2"]).trace =
      [.RunPerf "n" "n" "i" 5 ["c1", "c2"]] ∧
    parserInputs (ProcessWinperf calmWorld ["@b", "n", "i", "5", "c1", "c2"]).trace =
      [["n", "i", "5", "c1", "c2"]] ∧
    executorCalls (ProcessWinperf calmWorld ["@b", "n", "i", "5", "c1", "c2"]).trace =
      [.RunPerf "i" "i" "5" 20 ["c2"]] ∧
    executorCalls (ProcessWinperf calmWorld ["@a", "@b", "n", "i", "5", "c1", "c2"]).trace ≠
      executorCalls (ProcessWinperf calmWorld ["@b", "n", "i", "5", "c1", "c2"]).trace := by
  decide

/-- C5, amended. For a run-once list whose redirect, when there is one, was
applied and whose remainder the descriptor sub-parser accepts: the sub-parser
gets the list from `offset` on (`offset` is 1 with a redirect, else 0), and the
only executor call is `RunPerf` with the port token at `offset + 1` and, as
counters, the tokens from index `4 + offset` on, in order, up to the first `#`
or the end (no call when the port token is missing). When the list behind the
redirect token starts with a token that is not itself `@`-prefixed, sub-parser
input, executor call (port and counters included) and outcome are those of
that list. -/
theorem ProcessWinperf_counters (w : World) (a0 : String) (rest : List String) (offset : Nat)
    (hoff : offset = if a0.data.head? = some '@' then 1 else 0)
    (happlied : offset = 1 → w.redirectThrows (String.mk (a0.data.drop 1)) = false)
    (hacc : (w.ParseExeCommandLine ((a0 :: rest).drop offset)).error_code = 0) :
    parserInputs (ProcessWinperf w (a0 :: rest)).trace = [(a0 :: rest).drop offset] ∧
    executorCalls (ProcessWinperf w (a0 :: rest)).trace =
      (match (a0 :: rest)[offset + 1]? with
        | none => []
        | some port =>
          [.RunPerf (w.ParseExeCommandLine ((a0 :: rest).drop offset)).name port
            (w.ParseExeCommandLine ((a0 :: rest).drop offset)).id_val
            (ToInt (w.ParseExeCommandLine ((a0 :: rest).drop offset)).timeout_val 20)
            (((a0 :: rest).drop (4 + offset)).takeWhile (fun a => a != "#"))]) ∧
    (∀ b more, offset = 1 → rest = b :: more → b.data.head? ≠ some '@' →
      parserInputs (ProcessWinperf w (a0 :: rest)).trace =
        parserInputs (ProcessWinperf w rest).trace ∧
      executorCalls (ProcessWinperf w (a0 :: rest)).trace =
        executorCalls (ProcessWinperf w rest).trace ∧
      (ProcessWinperf w (a0 :: rest)).ctl = (ProcessWinperf w rest).ctl) := by
  by_cases hat : a0.data.head? = some '@'
  · simp only [hat, if_true] at hoff
    subst hoff
    have hthrow := happlied rfl
    obtain ⟨h1, h2, h3⟩ := ProcessWinperfAt_accepted w (a0 :: rest) 1 hacc
    have hrun : ProcessWinperf w (a0 :: rest) =
        emit [.ChangeLogFileName (String.mk (a0.data.drop 1)), .EnableDebugLog true,
          .EnableTraceLog true, .log "winperf started"] (ProcessWinperfAt w (a0 :: rest) 1) := by
      have hthrow2 : w.redirectThrows ⟨a0.data.tail⟩ = false := by simpa using hthrow
      simp [ProcessWinperf, hat, hthrow2, ToUtf8]
    have hp : parserInputs (ProcessWinperf w (a0 :: rest)).trace = [(a0 :: rest).drop 1] := by
      rw [hrun, ← h1]
      simp [parserInputs, List.filterMap_cons]
    have he : executorCalls (ProcessWinperf w (a0 :: rest)).trace =
        executorCalls (ProcessWinperfAt w (a0 :: rest) 1).trace := by
      rw [hrun]
      simp [executorCalls, List.filterMap_cons]
    refine ⟨hp, by rw [he, h2], ?_⟩
    intro b more _ hrest hb
    subst hrest
    have hacc0 : (w.ParseExeCommandLine ((b :: more).drop 0)).error_code = 0 := by
      simpa using hacc
    obtain ⟨g1, g2, g3⟩ := ProcessWinperfAt_accepted w (b :: more) 0 hacc0
    have hrun0 : ProcessWinperf w (b :: more) = ProcessWinperfAt w (b :: more) 0 := by
      simp [ProcessWinperf, hb]
    rw [hp, he, h2, hrun0, g1, g2, g3, hrun, emit_ctl, h3]
    refine ⟨by simp, ?_, ?_⟩ <;> cases more <;> simp
  · simp only [hat, if_false] at hoff
    subst hoff
    obtain ⟨h1, h2, -⟩ := ProcessWinperfAt_accepted w (a0 :: rest) 0 hacc
    have hrun : ProcessWinperf w (a0 :: rest) = ProcessWinperfAt w (a0 :: rest) 0 := by
      simp [ProcessWinperf, hat]
    rw [hrun]
    exact ⟨h1, h2, fun _ _ h => absurd h (by decide)⟩

/-- Instance of C5: a redirect, four descriptor tokens, two counters, the
sentinel and a token after it. -/
theorem ProcessWinperf_counters_witness :
    executorCalls (ProcessWinperf calmWorld
      ["@log", "winperf", "file:x.txt", "12345", "5", "238:processor", "510:if", "#", "x"]).trace =
      [.RunPerf "file:x.txt" "file:x.txt" "12345" 5 ["238:processor", "510:if"]] :=
  (ProcessWinperf_counters calmWorld "@log"
    ["winperf", "file:x.txt", "12345", "5", "238:processor", "510:if", "#", "x"] 1
    rfl (fun _ => rfl) rfl).2.1

/-! ## The numeric helpers -/

/-- A token in which no number can be read makes each helper return the
caller's default. -/
theorem helpers_not_numeric (t : String) (h : scanInteger t = none) (d : Int) (u : Nat) :
    ToInt t d = d ∧ ToInt64 t d = d ∧ ToUInt t u = u ∧ ToUInt64 t u = u := by
  simp [ToInt, ToInt64, ToUInt, ToUInt64, stoi, stoll, stoul, stoull, h]

/-- The examples of the numeric fallback: a number in range is returned, a
token that is no number and numbers too large for the target give the
default. -/
theorem helpers_examples :
    ToInt "42" 7 = 42 ∧ ToInt "not-a-number" 7 = 7 ∧ ToInt "2147483648" 7 = 7 ∧
    ToInt "-2147483649" 7 = 7 ∧ ToInt64 "9223372036854775808" 7 = 7 ∧
    ToUInt "4294967296" 7 = 7 ∧ ToUInt64 "18446744073709551616" 7 = 7 := by
  decide

/-- A digit is neither white space nor a sign. -/
theorem digit_plain (c : Char) (h : c.isDigit = true) :
    isspace c = false ∧ c ≠ '+' ∧ c ≠ '-' := by
  refine ⟨?_, ?_, ?_⟩
  · simp only [isspace, Bool.or_eq_false_iff, beq_eq_false_iff_ne, ne_eq]
    refine ⟨⟨⟨⟨⟨?_, ?_⟩, ?_⟩, ?_⟩, ?_⟩, ?_⟩ <;> (rintro rfl; exact absurd h (by decide))
  · rintro rfl; exact absurd h (by decide)
  · rintro rfl; exact absurd h (by decide)

/-- Skipping white space removes a run of it in front of other text. -/
theorem dropWhile_space (ws x : List Char) (hws : ∀ c ∈ ws, isspace c = true)
    (hx : ∀ c ∈ x.head?, isspace c = false) : (ws ++ x).dropWhile isspace = x := by
  induction ws with
  | nil =>
    cases x with
    | nil => rfl
    | cons c r => simp [List.dropWhile, hx c (by simp)]
  | cons a ws ih =>
    have ha := hws a (by simp)
    simp [List.dropWhile, ha, ih (fun c hc => hws c (by simp [hc]))]

/-- The longest run of digits in front of text that does not go on with a
digit is the run itself. -/
theorem takeWhile_digits (ds tl : List Char) (hds : ∀ c ∈ ds, c.isDigit = true)
    (htl : ∀ c ∈ tl.head?, c.isDigit = false) : (ds ++ tl).takeWhile Char.isDigit = ds := by
  induction ds with
  | nil =>
    cases tl with
    | nil => rfl
    | cons c r => simp [List.takeWhile, htl c (by simp)]
  | cons a ds ih =>
    have ha := hds a (by simp)
    simp [List.takeWhile, ha, ih (fun c hc => hds c (by simp [hc]))]

/-- Text that does not start with a sign is read without one. -/
theorem signMatch_plain (c : Char) (r : List Char) (h1 : c ≠ '-') (h2 : c ≠ '+') :
    (match c :: r with
      | '-' :: r => (true, r)
      | '+' :: r => (false, r)
      | _ => (false, c :: r)) = (false, c :: r) := by
  split
  · rename_i heq; cases heq; exact absurd rfl h1
  · rename_i heq; cases heq; exact absurd rfl h2
  · rfl

/-- The scan of a token, given what is left after the leading white space. -/
theorem scanInteger_body (cs body : List Char) (h : cs.dropWhile isspace = body) :
    scanInteger (String.mk cs) =
      if ((match body with
            | '-' :: r => (true, r)
            | '+' :: r => (false, r)
            | _ => (false, body)).2.takeWhile Char.isDigit) = [] then none
      else some ((match body with
            | '-' :: r => (true, r)
            | '+' :: r => (false, r)
            | _ => (false, body)).1,
          digitsValue ((match body with
            | '-' :: r => (true, r)
            | '+' :: r => (false, r)
            | _ => (false, body)).2.takeWhile Char.isDigit)) := by
  subst h
  rfl

/-- The scan of white space, an optional sign, a non-empty run of digits and
text that does not go on with a digit gives the sign and the value of the
digits. -/
theorem scanInteger_numeral (ws sgn ds tl : List Char)
    (hws : ∀ c ∈ ws, isspace c = true) (hsgn : sgn = [] ∨ sgn = ['+'] ∨ sgn = ['-'])
    (hne : ds ≠ []) (hds : ∀ c ∈ ds, c.isDigit = true)
    (htl : ∀ c ∈ tl.head?, c.isDigit = false) :
    scanInteger (String.mk (ws ++ sgn ++ ds ++ tl)) =
      some (decide (sgn = ['-']), digitsValue ds) := by
  obtain ⟨d0, ds', rfl⟩ := List.exists_cons_of_ne_nil hne
  have hd0 := digit_plain d0 (hds d0 (by simp))
  have htake := takeWhile_digits (d0 :: ds') tl hds htl
  rcases hsgn with rfl | rfl | rfl
  · have hdrop := dropWhile_space ws ((d0 :: ds') ++ tl) hws (by simpa using hd0.1)
    rw [scanInteger_body _ ((d0 :: ds') ++ tl) (by simpa using hdrop)]
    rw [List.cons_append, signMatch_plain d0 (ds' ++ tl) hd0.2.2 hd0.2.1]
    rw [List.cons_append] at htake
    simp [htake]
  · have hdrop := dropWhile_space ws ('+' :: ((d0 :: ds') ++ tl)) hws (by simp [isspace])
    rw [scanInteger_body _ ('+' :: ((d0 :: ds') ++ tl)) (by simpa using hdrop)]
    rw [List.cons_append] at htake
    simp [htake, hds d0 (by simp)]
  · have hdrop := dropWhile_space ws ('-' :: ((d0 :: ds') ++ tl)) hws (by simp [isspace])
    rw [scanInteger_body _ ('-' :: ((d0 :: ds') ++ tl)) (by simpa using hdrop)]
    rw [List.cons_append] at htake
    simp [htake, hds d0 (by simp)]

/-- The scan of white space, an optional sign and text that does not go on
with a digit finds no number. -/
theorem scanInteger_no_number (ws sgn tl : List Char)
    (hws : ∀ c ∈ ws, isspace c = true) (hsgn : sgn = [] ∨ sgn = ['+'] ∨ sgn = ['-'])
    (htl : ∀ c ∈ tl.head?, c.isDigit = false)
    (hplain : sgn = [] → ∀ c ∈ tl.head?, isspace c = false ∧ c ≠ '+' ∧ c ≠ '-') :
    scanInteger (String.mk (ws ++ sgn ++ tl)) = none := by
  have htake := takeWhile_digits [] tl (by simp) htl
  simp only [List.nil_append] at htake
  rcases hsgn with rfl | rfl | rfl
  · have hp := hplain rfl
    have hdrop := dropWhile_space ws tl hws (fun c hc => (hp c hc).1)
    rw [scanInteger_body _ tl (by simpa using hdrop)]
    cases tl with
    | nil => simp
    | cons c r =>
      have hc := hp c (by simp)
      rw [signMatch_plain c r hc.2.2 hc.2.1]
      simp [htake]
  · have hdrop := dropWhile_space ws ('+' :: tl) hws (by simp [isspace])
    rw [scanInteger_body _ ('+' :: tl) (by simpa using hdrop)]
    simp [htake]
  · have hdrop := dropWhile_space ws ('-' :: tl) hws (by simp [isspace])
    rw [scanInteger_body _ ('-' :: tl) (by simpa using hdrop)]
    simp [htake]

/-- Refutation of C6 as stated. The token `42abc` is not a number, yet `ToInt`
with default 7 returns 42, the number at its start, not the default; and the
token `-1` stands for an integer below the unsigned ranges, yet `ToUInt` and
`ToUInt64` with default 7 return `2 ^ 32 - 1` and `2 ^ 64 - 1`, the value
wrapped into the unsigned type. -/
theorem helpers_prefix_and_wrap :
    ToInt "42abc" 7 = 42 ∧ ToInt "42abc" 7 ≠ 7 ∧
    ToUInt "-1" 7 = 4294967295 ∧ ToUInt "-1" 7 ≠ 7 ∧
    ToUInt64 "-1" 7 = 18446744073709551615 ∧ ToUInt64 "-1" 7 ≠ 7 := by
  decide

/-- C6, amended. For a token made of white space, an optional sign, a
non-empty run of decimal digits and any text that does not go on with a digit,
`ToInt` and `ToInt64` return the signed value of the digits when it lies in
the 32-bit and the 64-bit signed range and the default otherwise, and, when
the sign is not a minus, `ToUInt` and `ToUInt64` return the value of the
digits when it is at most `2 ^ 32 - 1` and `2 ^ 64 - 1` and the default
otherwise. For a token in which white space and an optional sign are not
followed by a digit, every helper returns the default. -/
theorem helpers_fallback (ws sgn ds tl : List Char) (d : Int) (u : Nat)
    (hws : ∀ c ∈ ws, isspace c = true) (hsgn : sgn = [] ∨ sgn = ['+'] ∨ sgn = ['-'])
    (hne : ds ≠ []) (hds : ∀ c ∈ ds, c.isDigit = true)
    (htl : ∀ c ∈ tl.head?, c.isDigit = false) :
    (ToInt (String.mk (ws ++ sgn ++ ds ++ tl)) d =
      (if -(2 : Int) ^ 31 ≤ (if sgn = ['-'] then -(digitsValue ds : Int) else digitsValue ds) ∧
          (if sgn = ['-'] then -(digitsValue ds : Int) else digitsValue ds) ≤ (2 : Int) ^ 31 - 1
        then (if sgn = ['-'] then -(digitsValue ds : Int) else digitsValue ds) else d)) ∧
    (ToInt64 (String.mk (ws ++ sgn ++ ds ++ tl)) d =
      (if -(2 : Int) ^ 63 ≤ (if sgn = ['-'] then -(digitsValue ds : Int) else digitsValue ds) ∧
          (if sgn = ['-'] then -(digitsValue ds : Int) else digitsValue ds) ≤ (2 : Int) ^ 63 - 1
        then (if sgn = ['-'] then -(digitsValue ds : Int) else digitsValue ds) else d)) ∧
    (sgn ≠ ['-'] →
      ToUInt (String.mk (ws ++ sgn ++ ds ++ tl)) u =
        (if digitsValue ds ≤ 2 ^ 32 - 1 then digitsValue ds else u) ∧
      ToUInt64 (String.mk (ws ++ sgn ++ ds ++ tl)) u =
        (if digitsValue ds ≤ 2 ^ 64 - 1 then digitsValue ds else u)) ∧
    ((sgn = [] → ∀ c ∈ tl.head?, isspace c = false ∧ c ≠ '+' ∧ c ≠ '-') →
      ToInt (String.mk (ws ++ sgn ++ tl)) d = d ∧
      ToInt64 (String.mk (ws ++ sgn ++ tl)) d = d ∧
      ToUInt (String.mk (ws ++ sgn ++ tl)) u = u ∧
      ToUInt64 (String.mk (ws ++ sgn ++ tl)) u = u) := by
  have hscan := scanInteger_numeral ws sgn ds tl hws hsgn hne hds htl
  refine ⟨?_, ?_, ?_, ?_⟩
  · rw [ToInt_of_scan _ _ _ d hscan]
    by_cases hs : sgn = ['-'] <;> simp [hs]
  · rw [ToInt64_of_scan _ _ _ d hscan]
    by_cases hs : sgn = ['-'] <;> simp [hs]
  · intro hs
    have hscan2 : scanInteger (String.mk (ws ++ sgn ++ ds ++ tl)) =
        some (false, digitsValue ds) := by
      rw [hscan]
      simp [hs]
    exact ToUInt_of_scan _ _ u hscan2
  · intro hplain
    exact helpers_not_numeric _ (scanInteger_no_number ws sgn tl hws hsgn htl hplain) d u

/-- Instance of C6, amended: the tokens `42` and `42abc` read as 42, and
`not-a-number` gives the default. -/
theorem helpers_fallback_witness :
    (ToInt "42abc" 7 = 42 ∧ ToInt64 "42abc" 7 = 42 ∧ ToUInt "42abc" 7 = 42 ∧
      ToUInt64 "42abc" 7 = 42) ∧
    (ToInt "not-a-number" 7 = 7 ∧ ToInt64 "not-a-number" 7 = 7 ∧
      ToUInt "not-a-number" 7 = 7 ∧ ToUInt64 "not-a-number" 7 = 7) :=
  ⟨⟨(helpers_fallback [] [] ['4', '2'] ['a', 'b', 'c'] 7 7 (by simp) (Or.inl rfl) (by simp)
        (by decide) (by decide)).1,
    (helpers_fallback [] [] ['4', '2'] ['a', 'b', 'c'] 7 7 (by simp) (Or.inl rfl) (by simp)
        (by decide) (by decide)).2.1,
    ((helpers_fallback [] [] ['4', '2'] ['a', 'b', 'c'] 7 7 (by simp) (Or.inl rfl) (by simp)
        (by decide) (by decide)).2.2.1 (by simp)).1,
    ((helpers_fallback [] [] ['4', '2'] ['a', 'b', 'c'] 7 7 (by simp) (Or.inl rfl) (by simp)
        (by decide) (by decide)).2.2.1 (by simp)).2⟩,
   (helpers_fallback [] [] ['0'] ['n', 'o', 't', '-', 'a', '-', 'n', 'u', 'm', 'b', 'e', 'r'] 7 7
      (by simp) (Or.inl rfl) (by simp) (by decide) (by decide)).2.2.2 (by decide)⟩

/-! ## Run-once: the reads of the token list -/

/-- When the wait returns, `MainFunction` on the run-once token is the wait
followed by `ProcessWinperf` on the tokens after it. -/
theorem MainFunction_runonce (K : CmdLine) (w : World) (prog : String) (rest : List String)
    (hwait : (WaitForPostInstall w).ctl = .done ()) :
    MainFunction K w (prog :: K.kRunOnceParam :: rest) =
      emit (.set_terminate :: (WaitForPostInstall w).trace) (ProcessWinperf w rest) := by
  simp [MainFunction, bind_of_done _ _ _ hwait, ToUtf8, emit]

/-- On the empty list `ProcessWinperf` reads `args[0]` outside the list, in
every world, before anything else happens. -/
theorem ProcessWinperf_nil (w : World) : ProcessWinperf w [] = ⟨[], .undefined⟩ := by
  simp [ProcessWinperf]

/-- With the run-once token as the only token after the program path,
`MainFunction` reaches the read of `args[0]` outside the empty list in every
world in which the wait returns. -/
theorem MainFunction_runonce_bare (K : CmdLine) (w : World) (prog : String)
    (hwait : (WaitForPostInstall w).ctl = .done ()) :
    MainFunction K w [prog, K.kRunOnceParam] =
      ⟨.set_terminate :: (WaitForPostInstall w).trace, .undefined⟩ := by
  rw [MainFunction_runonce K w prog [] hwait, ProcessWinperf_nil]
  simp [emit]

/-- When the sub-parser reports no error, the read of the port token falls
outside the list exactly when the list has no token at `offset + 1`; the
function itself checks nothing before that read. -/
theorem ProcessWinperfAt_port_read (w : World) (args : List String) (offset : Nat)
    (hacc : (w.ParseExeCommandLine (args.drop offset)).error_code = 0) :
    (ProcessWinperfAt w args offset).ctl = .undefined ↔ args.length ≤ offset + 1 := by
  rw [(ProcessWinperfAt_accepted w args offset hacc).2.2]
  cases hp : args[offset + 1]? with
  | none =>
    have := List.getElem?_eq_none_iff.mp hp
    simp [this]
  | some port =>
    have hlt : offset + 1 < args.length := by
      by_contra hge
      rw [List.getElem?_eq_none_iff.mpr (by omega)] at hp
      cases hp
    simp
    omega

/-- C11, the failing input. For the argument vector that ends with the
run-once token, the token list handed to `ProcessWinperf` is empty and the
inspection of its first token, `args[0]`, falls outside the list: the run of
`MainFunction` stops there after the terminate handler and one poll, and
`ProcessWinperf` on the empty list does nothing but that read. -/
theorem ProcessWinperf_reads_outside :
    MainFunction specCmdLine calmWorld ["agent", "run-once"] =
      ⟨[.set_terminate, .IsPostInstallRequired false], .undefined⟩ ∧
    ProcessWinperf calmWorld [] = ⟨[], .undefined⟩ := by
  decide

end cma
